import Mathlib

/-!
Verification development for the slack-reader repository.

The Go code under verification works on dynamically typed JSON values
(`map[string]any` after `encoding/json` unmarshalling).  We embed those
values as the inductive type `JVal` below; Go type assertions with a
dropped `ok` flag (`x, _ := v.(T)`) become pattern matches that fall back
to the Go zero value.  JSON numbers (Go `float64`) are embedded as
rationals, which agree with `float64` on every value the code inspects
(small integral reply counts).  Go byte strings are embedded as Lean
strings; all tokens handled by the claims are ASCII, where Go byte
indexing and Lean character indexing coincide.
-/

/-- A JSON value as produced by Go `encoding/json` into `any`. -/
inductive JVal where
  | jnull
  | jbool (b : Bool)
  | jnum (q : Rat)
  | jstr (s : String)
  | jarr (xs : List JVal)
  | jobj (fields : List (String × JVal))
deriving Repr, Inhabited

/-- The fields of a JSON object (Go `map[string]any`). -/
abbrev Fields := List (String × JVal)

/-- A Slack message object (Go `map[string]any`). -/
abbrev Msg := Fields

/-- Go `m["k"]` on a string-keyed map: the value, or `nil` when absent. -/
def jget (fs : Fields) (k : String) : JVal :=
  match fs.find? (fun p => p.1 == k) with
  | some p => p.2
  | none => .jnull

/-- Go `v.(string)` with the `ok` flag dropped: zero value `""` on failure. -/
def jstrD (v : JVal) : String :=
  match v with
  | .jstr s => s
  | _ => ""

/-- Go `v.(float64)` with the `ok` flag dropped: zero value `0` on failure. -/
def jnumD (v : JVal) : Rat :=
  match v with
  | .jnum q => q
  | _ => 0

/-- Go `v.([]any)` with the `ok` flag dropped: `nil` (empty) on failure. -/
def jarrD (v : JVal) : List JVal :=
  match v with
  | .jarr xs => xs
  | _ => []

/-- Go `v.(map[string]any)` with the `ok` flag dropped: `none` is Go `nil`. -/
def jobjD (v : JVal) : Option Fields :=
  match v with
  | .jobj fs => some fs
  | _ => none

/-- Go `int(f)` for a `float64`: truncation toward zero. -/
def goInt (q : Rat) : Int :=
  if 0 ≤ q then ⌊q⌋ else -(⌊-q⌋)

/-- Flat string-keyed request parameters (Go `map[string]string`). -/
abbrev Params := List (String × String)

/-- Lookup of a request parameter; `none` when the key was never set. -/
def pget (ps : Params) (k : String) : Option String :=
  (ps.find? (fun p => p.1 == k)).map (fun p => p.2)

/-!
## TimestampNormalizer (src/unnamed/part_001, `NormalizeTimestamp`)

Go operates on byte length / byte slicing; for the ASCII tokens this
function is meant for, Lean character operations coincide.
-/

/-- `NormalizeTimestamp` from src/unnamed/part_001 lines 16-25.
`strings.Contains(ts, ".")` of the single-character substring is character
containment; `len(ts)` and the slices `ts[:10]`, `ts[10:]` are byte
operations in Go, identical to the character operations here on ASCII. -/
def NormalizeTimestamp (ts : String) : String :=
  if ts.data.contains '.' then ts
  else if ts.data.length = 16 then
    String.mk (ts.data.take 10) ++ "." ++ String.mk (ts.data.drop 10)
  else ts

example : NormalizeTimestamp "1772147524.763449" = "1772147524.763449" := by decide
example : NormalizeTimestamp "1772147524763449" = "1772147524.763449" := by decide
example : NormalizeTimestamp "12345" = "12345" := by decide
example : NormalizeTimestamp "" = "" := by decide

/-!
## Go `sort.Slice` (ChronologicalSorter)

`ListChannelHistory` and `ListThread` sort with `sort.Slice(msgs, less)`.
`sort.Slice` is Go's pattern-defeating quicksort (`pdqsort_func` in the
standard library, driven as `pdqsort_func(lessSwap{less,swap}, 0, n,
bits.Len(uint(n)))`); it is deterministic but NOT stable.  The functions
below embed that algorithm faithfully, element moves being index swaps.
The main driver uses fuel for its loop/recursion; the fuel supplied by
`sortSliceBy` exceeds the iteration count of every run.
-/

section GoSort

variable {α : Type} [Inhabited α]

/-- Indexing `data[i]` (always in bounds in the algorithm). -/
def nthD (xs : List α) (i : Nat) : α := xs.getD i default

/-- `data.Swap(i, j)`; out-of-range indices never occur in the algorithm. -/
def lswap (xs : List α) (i j : Nat) : List α :=
  if i < xs.length ∧ j < xs.length then
    (xs.set i (nthD xs j)).set j (nthD xs i)
  else xs

/-- Inner loop of `insertionSort_func`: shift element `j` left while it is
less than its left neighbour and `j > a`. -/
def insShift (lt : α → α → Bool) (a : Nat) : List α → Nat → List α
  | xs, 0 => xs
  | xs, j+1 =>
    if a ≤ j && lt (nthD xs (j+1)) (nthD xs j) then
      insShift lt a (lswap xs (j+1) j) j
    else xs

/-- Outer loop of `insertionSort_func`, `i` running over `[a+1, b)`;
fueled, the fuel passed by `insSort` exceeds the iteration count. -/
def insSortFrom (lt : α → α → Bool) (a b : Nat) : Nat → List α → Nat → List α
  | 0, xs, _ => xs
  | fuel+1, xs, i => if i < b then insSortFrom lt a b fuel (insShift lt a xs i) (i+1) else xs

/-- `insertionSort_func(data, a, b)`. -/
def insSort (lt : α → α → Bool) (a b : Nat) (xs : List α) : List α :=
  insSortFrom lt a b (b+1) xs (a+1)

/-- `siftDown_func(data, lo, hi, first)`; the `root` walk is fueled, the
fuel supplied by callers exceeds `hi`. -/
def siftDown (lt : α → α → Bool) (first hi : Nat) : Nat → List α → Nat → List α
  | 0, xs, _ => xs
  | fuel+1, xs, root =>
    let child0 := 2*root+1
    if child0 < hi then
      let child :=
        if child0+1 < hi && lt (nthD xs (first+child0)) (nthD xs (first+child0+1)) then
          child0+1
        else child0
      if lt (nthD xs (first+root)) (nthD xs (first+child)) then
        siftDown lt first hi fuel (lswap xs (first+root) (first+child)) child
      else xs
    else xs

/-- Heap-building loop of `heapSort_func`: `i` from `(hi-1)/2` down to 0;
the counter argument is `i+1`. -/
def heapBuild (lt : α → α → Bool) (first hi : Nat) : List α → Nat → List α
  | xs, 0 => xs
  | xs, i+1 => heapBuild lt first hi (siftDown lt first hi (hi+1) xs i) i

/-- Pop loop of `heapSort_func`: `i` from `hi-1` down to 0. -/
def heapPop (lt : α → α → Bool) (first : Nat) : List α → Nat → List α
  | xs, 0 => xs
  | xs, i+1 => heapPop lt first (siftDown lt first i (i+1) (lswap xs first (first+i)) 0) i

/-- `heapSort_func(data, a, b)`. -/
def heapSort (lt : α → α → Bool) (a b : Nat) (xs : List α) : List α :=
  heapPop lt a (heapBuild lt a (b-a) xs ((b-a-1)/2 + 1)) (b-a)

/-- `order2_func`: orders two indices, counting a swap. -/
def order2 (lt : α → α → Bool) (xs : List α) (a b swaps : Nat) : Nat × Nat × Nat :=
  if lt (nthD xs b) (nthD xs a) then (b, a, swaps+1) else (a, b, swaps)

/-- `median_func`: index of the median of three elements. -/
def median (lt : α → α → Bool) (xs : List α) (a b c swaps : Nat) : Nat × Nat :=
  match order2 lt xs a b swaps with
  | (a1, b1, s1) =>
    match order2 lt xs b1 c s1 with
    | (b2, _, s2) =>
      match order2 lt xs a1 b2 s2 with
      | (_, b3, s3) => (b3, s3)

/-- `medianAdjacent_func`. -/
def medianAdjacent (lt : α → α → Bool) (xs : List α) (a swaps : Nat) : Nat × Nat :=
  median lt xs (a-1) a (a+1) swaps

/-- The `sortedHint` returned by `choosePivot_func`. -/
inductive Hint where
  | increasing
  | decreasing
  | unknown
deriving Repr, DecidableEq, BEq

/-- `choosePivot_func(data, a, b)`. -/
def choosePivot (lt : α → α → Bool) (xs : List α) (a b : Nat) : Nat × Hint :=
  let l := b - a
  let i0 := a + l/4*1
  let j0 := a + l/4*2
  let k0 := a + l/4*3
  if 8 ≤ l then
    let (i1, j1, k1, s1) :=
      if 50 ≤ l then
        let (i1, si) := medianAdjacent lt xs i0 0
        let (j1, sj) := medianAdjacent lt xs j0 si
        let (k1, sk) := medianAdjacent lt xs k0 sj
        (i1, j1, k1, sk)
      else (i0, j0, k0, 0)
    let (j2, s2) := median lt xs i1 j1 k1 s1
    if s2 = 0 then (j2, Hint.increasing)
    else if s2 = 12 then (j2, Hint.decreasing)
    else (j2, Hint.unknown)
  else (j0, Hint.increasing)

/-- `reverseRange_func(data, a, b)`; fueled. -/
def revRangeAux : Nat → List α → Nat → Nat → List α
  | 0, xs, _, _ => xs
  | fuel+1, xs, i, j => if i < j then revRangeAux fuel (lswap xs i j) (i+1) (j-1) else xs

/-- `reverseRange_func`. -/
def revRange (xs : List α) (a b : Nat) : List α := revRangeAux (b+1) xs a (b-1)

/-- `for i <= j && data.Less(i, a) { i++ }` of `partition_func`;
fueled, callers pass fuel exceeding `j + 1 - i`. -/
def scanUp (lt : α → α → Bool) (xs : List α) (a : Nat) : Nat → Nat → Nat → Nat
  | 0, i, _ => i
  | fuel+1, i, j =>
    if i ≤ j ∧ lt (nthD xs i) (nthD xs a) = true then scanUp lt xs a fuel (i+1) j else i

/-- `for i <= j && !data.Less(j, a) { j-- }` of `partition_func`.  The
callers always pass `i ≥ a+1 ≥ 1`, so Go's `j` never goes negative; the
base case covers `j = 0`, where the loop condition is false. -/
def scanDown (lt : α → α → Bool) (xs : List α) (a i : Nat) : Nat → Nat
  | 0 => 0
  | j+1 =>
    if i ≤ j+1 && !(lt (nthD xs (j+1)) (nthD xs a)) then scanDown lt xs a i j else j+1

/-- The swap loop of `partition_func`; fuel exceeds the iteration count. -/
def partLoop (lt : α → α → Bool) (a : Nat) : Nat → List α → Nat → Nat → List α × Nat
  | 0, xs, _, j => (xs, j)
  | fuel+1, xs, i, j =>
    let i1 := scanUp lt xs a (j+2) i j
    let j1 := scanDown lt xs a i1 j
    if j1 < i1 then (xs, j1)
    else partLoop lt a fuel (lswap xs i1 j1) (i1+1) (j1-1)

/-- `partition_func(data, a, b, pivot)`: a pure quicksort partition,
returning the new data, the pivot position, and `alreadyPartitioned`. -/
def partitionF (lt : α → α → Bool) (xs : List α) (a b pivot : Nat) :
    List α × Nat × Bool :=
  let xs0 := lswap xs a pivot
  let i1 := scanUp lt xs0 a (b+1) (a+1) (b-1)
  let j1 := scanDown lt xs0 a i1 (b-1)
  if j1 < i1 then (lswap xs0 j1 a, j1, true)
  else
    let xs1 := lswap xs0 i1 j1
    let (xs2, j2) := partLoop lt a (b+1) xs1 (i1+1) (j1-1)
    (lswap xs2 j2 a, j2, false)

/-- `for i <= j && !data.Less(a, i) { i++ }` of `partitionEqual_func`; fueled. -/
def scanUpEq (lt : α → α → Bool) (xs : List α) (a : Nat) : Nat → Nat → Nat → Nat
  | 0, i, _ => i
  | fuel+1, i, j =>
    if i ≤ j ∧ lt (nthD xs a) (nthD xs i) = false then scanUpEq lt xs a fuel (i+1) j else i

/-- `for i <= j && data.Less(a, j) { j-- }` of `partitionEqual_func`. -/
def scanDownEq (lt : α → α → Bool) (xs : List α) (a i : Nat) : Nat → Nat
  | 0 => 0
  | j+1 =>
    if i ≤ j+1 && lt (nthD xs a) (nthD xs (j+1)) then scanDownEq lt xs a i j else j+1

/-- The swap loop of `partitionEqual_func`, returning the final `i`. -/
def partEqLoop (lt : α → α → Bool) (a : Nat) : Nat → List α → Nat → Nat → List α × Nat
  | 0, xs, i, _ => (xs, i)
  | fuel+1, xs, i, j =>
    let i1 := scanUpEq lt xs a (j+2) i j
    let j1 := scanDownEq lt xs a i1 j
    if j1 < i1 then (xs, i1)
    else partEqLoop lt a fuel (lswap xs i1 j1) (i1+1) (j1-1)

/-- `partitionEqual_func(data, a, b, pivot)`. -/
def partitionEqualF (lt : α → α → Bool) (xs : List α) (a b pivot : Nat) :
    List α × Nat :=
  partEqLoop lt a (b+1) (lswap xs a pivot) (a+1) (b-1)

/-- `for i < b && !data.Less(i, i-1) { i++ }` of `partialInsertionSort_func`; fueled. -/
def advanceSorted (lt : α → α → Bool) (b : Nat) (xs : List α) : Nat → Nat → Nat
  | 0, i => i
  | fuel+1, i =>
    if i < b ∧ lt (nthD xs i) (nthD xs (i-1)) = false then advanceSorted lt b xs fuel (i+1) else i

/-- Right shift of `partialInsertionSort_func`; fueled. -/
def shiftR (lt : α → α → Bool) (b : Nat) : Nat → List α → Nat → List α
  | 0, xs, _ => xs
  | fuel+1, xs, j =>
    if j < b ∧ lt (nthD xs j) (nthD xs (j-1)) = true then shiftR lt b fuel (lswap xs j (j-1)) (j+1) else xs

/-- `partialInsertionSort_func` main loop (`maxSteps = 5` steps); the left
shift `for j := i-1; j >= 1; j--` is `insShift` with barrier 0. -/
def partInsAux (lt : α → α → Bool) (a b : Nat) : Nat → List α → Nat → List α × Bool
  | 0, xs, _ => (xs, false)
  | steps+1, xs, i =>
    let i1 := advanceSorted lt b xs (b+1) i
    if i1 = b then (xs, true)
    else if b - a < 50 then (xs, false)
    else
      let xs1 := lswap xs i1 (i1-1)
      let xs2 := if 2 ≤ i1 - a then insShift lt 0 xs1 (i1-1) else xs1
      let xs3 := if 2 ≤ b - i1 then shiftR lt b (b+1) xs2 (i1+1) else xs2
      partInsAux lt a b steps xs3 i1

/-- `partialInsertionSort_func(data, a, b)`. -/
def partInsSort (lt : α → α → Bool) (a b : Nat) (xs : List α) : List α × Bool :=
  partInsAux lt a b 5 xs (a+1)

/-- `bits.Len` on a natural number. -/
def bitsLen (n : Nat) : Nat := if n = 0 then 0 else Nat.log2 n + 1

/-- One step of the `xorshift` generator used by `breakPatterns_func`,
on `uint64` embedded as naturals modulo `2^64`. -/
def xorshiftNext (r : Nat) : Nat :=
  let r1 := (r ^^^ (r <<< 13)) % 2^64
  let r2 := r1 ^^^ (r1 >>> 7)
  (r2 ^^^ (r2 <<< 17)) % 2^64

/-- `breakPatterns_func(data, a, b)` with its three swaps unrolled; the
generator state starts at the range length, `modulus = nextPowerOfTwo`. -/
def breakPatterns (xs : List α) (a b : Nat) : List α :=
  let len := b - a
  if 8 ≤ len then
    let modulus := 1 <<< (bitsLen len)
    let idx := a + (len/4)*2 - 1
    let r1 := xorshiftNext len
    let o1 := (fun o => if len ≤ o then o - len else o) (r1 &&& (modulus - 1))
    let xs1 := lswap xs (idx - 1) (a + o1)
    let r2 := xorshiftNext r1
    let o2 := (fun o => if len ≤ o then o - len else o) (r2 &&& (modulus - 1))
    let xs2 := lswap xs1 idx (a + o2)
    let r3 := xorshiftNext r2
    let o3 := (fun o => if len ≤ o then o - len else o) (r3 &&& (modulus - 1))
    lswap xs2 (idx + 1) (a + o3)
  else xs

/-- The tail of one `pdqsort_func` loop iteration, from the
`partitionEqual_func` test on: partition around the chosen pivot,
recurse (`rec`, the next fuel stage of `pdqsortF`) into the shorter
side, and loop on the longer side with updated balance flags. -/
def pdqCont (lt : α → α → Bool) (rec : List α → Nat → Nat → Nat → Bool → Bool → List α)
    (a b limit1 : Nat) (wasBalanced wasPartitioned : Bool) (pivot1 : Nat) (xsc : List α) :
    List α :=
  if 0 < a ∧ lt (nthD xsc (a-1)) (nthD xsc pivot1) = false then
    match partitionEqualF lt xsc a b pivot1 with
    | (xsd, mid) => rec xsd mid b limit1 wasBalanced wasPartitioned
  else
    match partitionF lt xsc a b pivot1 with
    | (xsd, mid, already) =>
      if mid - a < b - mid then
        rec (rec xsd a mid limit1 true true) (mid+1) b limit1
          (decide ((b - a) / 8 ≤ min (mid - a) (b - mid))) already
      else
        rec (rec xsd (mid+1) b limit1 true true) a mid limit1
          (decide ((b - a) / 8 ≤ min (mid - a) (b - mid))) already

/-- `pdqsort_func(data, a, b, limit)`.  The outer `for` loop and the
recursive calls both consume one unit of fuel per step; `sortSliceBy`
supplies more fuel than any run consumes. -/
def pdqsortF (lt : α → α → Bool) : Nat → List α → Nat → Nat → Nat → Bool → Bool → List α
  | 0, xs, _, _, _, _, _ => xs
  | fuel+1, xs, a, b, limit, wasBalanced, wasPartitioned =>
    if b - a ≤ 12 then insSort lt a b xs
    else if limit = 0 then heapSort lt a b xs
    else
      let xs0 := if !wasBalanced then breakPatterns xs a b else xs
      let limit1 := if !wasBalanced then limit - 1 else limit
      let (pivot0, hint0) := choosePivot lt xs0 a b
      let xs1 := if hint0 == Hint.decreasing then revRange xs0 a b else xs0
      let pivot1 := if hint0 == Hint.decreasing then (b - 1) - (pivot0 - a) else pivot0
      let hint1 := if hint0 == Hint.decreasing then Hint.increasing else hint0
      let cont := pdqCont lt (pdqsortF lt fuel) a b limit1 wasBalanced wasPartitioned pivot1
      if wasBalanced && wasPartitioned && (hint1 == Hint.increasing) then
        match partInsSort lt a b xs1 with
        | (xsp, true) => xsp
        | (xsp, false) => cont xsp
      else cont xs1

/-- `sort.Slice(x, less)`: `pdqsort_func(lessSwap, 0, n, bits.Len(n))`. -/
def sortSliceBy (lt : α → α → Bool) (xs : List α) : List α :=
  pdqsortF lt (xs.length + 70) xs 0 xs.length (bitsLen xs.length) true true

end GoSort

/-- The `ts` token of a message: `m["ts"].(string)`, `""` on failure. -/
def tsOf (m : Msg) : String := jstrD (jget m "ts")

/-- Go byte-wise lexicographic string `<` on character lists (identical to
byte order because UTF-8 is order-preserving). -/
def chLt : List Char → List Char → Bool
  | [], [] => false
  | [], _ :: _ => true
  | _ :: _, [] => false
  | x :: xs, y :: ys => if x < y then true else if y < x then false else chLt xs ys

/-- Go string `<`. -/
def strLt (a b : String) : Bool := chLt a.data b.data

/-- The `less` closure passed to `sort.Slice` by the aggregation code. -/
def msgLt (m1 m2 : Msg) : Bool := strLt (tsOf m1) (tsOf m2)

/-- The chronological sort performed at the end of `ListChannelHistory`
and `ListThread`: `sort.Slice(allMessages, ts-less)`. -/
def sortMessages (msgs : List Msg) : List Msg := sortSliceBy msgLt msgs

/-!
## PageFetcher / Aggregator (src/unnamed/part_001)

The abstract remote call (`APIClient.API`) takes a call index (the mocks
in the repository tests are indexed by call count), a method name and a
flat parameter map, and returns the decoded response object or an error.
The pagination loops are embedded with fuel; `out = none` means the fuel
ran out before the loop terminated (the Go loop would still be running).
Besides the Go results, the embedding returns the ghost trace of the
issued requests and received responses, which several claims are about.
-/

/-- The remote-call capability consumed by the engine. -/
abbrev ApiClient := Nat → String → Params → Except String Fields

/-- `resp["messages"].([]any)` filtered to the non-nil message objects,
exactly as the aggregation loops build `allMessages`. -/
def msgsOf (fs : Fields) : List Msg := (jarrD (jget fs "messages")).filterMap jobjD

/-- `resp["response_metadata"].(map[string]any)["next_cursor"].(string)`
with Go zero values at each failing step. -/
def nextCursorOf (fs : Fields) : String :=
  match jobjD (jget fs "response_metadata") with
  | none => ""
  | some meta => jstrD (jget meta "next_cursor")

/-- Outcome of one pagination run: ghost request trace, ghost response
trace, and the Go return value (`none` = fuel exhausted). -/
structure RunResult where
  reqs : List Params
  resps : List Fields
  out : Option (Except String (List Msg))

/-- The pagination loop of `ListChannelHistory` (part_001 lines 85-128). -/
def chanLoop (client : ApiClient) (channelID : String) (unlimited : Bool) (limit : Int) :
    Nat → List Msg → String → Nat → RunResult
  | 0, _, _, _ => ⟨[], [], none⟩
  | fuel+1, acc, cursor, k =>
    let pageSize : Int :=
      if !unlimited && decide (limit - (acc.length : Int) < 200) then limit - (acc.length : Int)
      else 200
    if pageSize ≤ 0 then ⟨[], [], some (.ok acc)⟩
    else
      let params : Params :=
        [("channel", channelID), ("limit", toString pageSize)]
          ++ (if cursor = "" then [] else [("cursor", cursor)])
      match client k "conversations.history" params with
      | .error e => ⟨[params], [], some (.error ("conversations.history: " ++ e))⟩
      | .ok resp =>
        let acc2 := acc ++ msgsOf resp
        if !unlimited && decide ((limit : Int) ≤ (acc2.length : Int)) then
          ⟨[params], [resp], some (.ok (acc2.take limit.toNat))⟩
        else if nextCursorOf resp = "" then ⟨[params], [resp], some (.ok acc2)⟩
        else
          let rest := chanLoop client channelID unlimited limit fuel acc2 (nextCursorOf resp) (k+1)
          ⟨params :: rest.reqs, resp :: rest.resps, rest.out⟩

/-- `ListChannelHistory` up to (not including) the final sort. -/
def ListChannelHistoryRun (fuel : Nat) (client : ApiClient) (channelID : String) (limit : Int) :
    RunResult :=
  let unlimited := decide (limit ≤ 0)
  let limit1 := if unlimited then 0 else limit
  chanLoop client channelID unlimited limit1 fuel [] "" 0

/-- `ListChannelHistory` (part_001 lines 76-138): paginate, then sort
chronologically with `sort.Slice`. -/
def ListChannelHistory (fuel : Nat) (client : ApiClient) (channelID : String) (limit : Int) :
    Option (Except String (List Msg)) :=
  (ListChannelHistoryRun fuel client channelID limit).out.map (fun r => r.map sortMessages)

/-- The pagination loop of `ListThread` (part_001 lines 146-180).  Note
the source order: the empty-cursor break comes BEFORE the limit check. -/
def threadLoop (client : ApiClient) (channelID threadTS : String) (limit : Int) :
    Nat → List Msg → String → Nat → RunResult
  | 0, _, _, _ => ⟨[], [], none⟩
  | fuel+1, acc, cursor, k =>
    let params : Params :=
      [("channel", channelID), ("ts", threadTS), ("limit", "200")]
        ++ (if cursor = "" then [] else [("cursor", cursor)])
    match client k "conversations.replies" params with
    | .error e => ⟨[params], [], some (.error ("conversations.replies: " ++ e))⟩
    | .ok resp =>
      let acc2 := acc ++ msgsOf resp
      if nextCursorOf resp = "" then ⟨[params], [resp], some (.ok acc2)⟩
      else if 0 < limit ∧ (limit : Int) ≤ (acc2.length : Int) then
        ⟨[params], [resp], some (.ok (acc2.take limit.toNat))⟩
      else
        let rest := threadLoop client channelID threadTS limit fuel acc2 (nextCursorOf resp) (k+1)
        ⟨params :: rest.reqs, resp :: rest.resps, rest.out⟩

/-- `ListThread` up to (not including) the final sort. -/
def ListThreadRun (fuel : Nat) (client : ApiClient) (channelID threadTS : String) (limit : Int) :
    RunResult :=
  threadLoop client channelID (NormalizeTimestamp threadTS) limit fuel [] "" 0

/-- `ListThread` (part_001 lines 141-190). -/
def ListThread (fuel : Nat) (client : ApiClient) (channelID threadTS : String) (limit : Int) :
    Option (Except String (List Msg)) :=
  (ListThreadRun fuel client channelID threadTS limit).out.map (fun r => r.map sortMessages)

/-!
## `Client.API` (src/internal/slack/client.go lines 40-60)

The transport returns the decoded JSON body or a transport error;
`Client.API` wraps transport errors with method context and turns a
response whose `ok` flag is not `true` into an error carrying the
remote error message.
-/

/-- The raw transport (`c.api.API` plus `json.Unmarshal`). -/
abbrev Transport := Nat → String → Params → Except String JVal

/-- `Client.API`: method context on transport errors, `ok`-flag check,
remote error message with `"unknown error"` fallback. -/
def clientAPI (transport : Transport) : ApiClient := fun k method params =>
  match transport k method params with
  | .error e => .error ("slack API " ++ method ++ ": " ++ e)
  | .ok body =>
    match body with
    | .jobj result =>
      let okFlag := match jget result "ok" with
        | .jbool b => b
        | _ => false
      if okFlag then .ok result
      else
        let errMsg := (fun m => if m = "" then "unknown error" else m) (jstrD (jget result "error"))
        .error ("slack API " ++ method ++ ": " ++ errMsg)
    | _ => .error ("unmarshal " ++ method ++ " response: invalid JSON")

/-!
## `GetMessage` (src/unnamed/part_001 lines 33-73)
-/

/-- The thread summary map `{"ts": ..., "length": int(replyCount)}`. -/
structure ThreadInfo where
  ts : String
  length : Int
deriving Repr, DecidableEq

/-- `MessageResult`. -/
structure MessageResult where
  message : Msg
  thread : Option ThreadInfo
deriving Repr

/-- `GetMessage`: single-message fetch with optional thread summary. -/
def GetMessage (client : ApiClient) (channelID ts0 : String) : Except String MessageResult :=
  let ts := NormalizeTimestamp ts0
  match client 0 "conversations.history"
      [("channel", channelID), ("latest", ts), ("oldest", ts),
       ("inclusive", "true"), ("limit", "1")] with
  | .error e => .error ("conversations.history: " ++ e)
  | .ok resp =>
    match jarrD (jget resp "messages") with
    | [] => .error ("message not found at ts=" ++ ts)
    | m :: _ =>
      match jobjD m with
      | none => .error "invalid message format"
      | some msg =>
        let replyCount := jnumD (jget msg "reply_count")
        if 0 < replyCount then
          let threadTS := (fun s => if s = "" then ts else s) (jstrD (jget msg "thread_ts"))
          .ok ⟨msg, some ⟨threadTS, goInt replyCount⟩⟩
        else .ok ⟨msg, none⟩

/-!
## ReferenceResolver (src/internal/slack/client.go lines 265-471)

`strings.TrimSpace` is modelled on the Latin-1 white-space set Go uses
for ASCII/Latin-1 input (the only input shape the resolver handles);
`regexp` patterns `^[CDG][A-Z0-9]{8,}$` and `^U[A-Z0-9]{8,}$` are
modelled as direct character checks.  Resolver runs also carry the ghost
trace of `(method, params)` calls issued.
-/

/-- Go `unicode.IsSpace` on the Latin-1 range. -/
def goIsSpace (c : Char) : Bool :=
  [' ', '\t', '\n', '\u000b', '\u000c', '\r', '\u0085', '\u00a0'].contains c

/-- `strings.TrimSpace`. -/
def goTrimSpace (s : String) : String :=
  String.mk (((s.data.dropWhile goIsSpace).reverse.dropWhile goIsSpace).reverse)

/-- The character class `[A-Z0-9]`. -/
def isUpperDigit (c : Char) : Bool := ('A' ≤ c && c ≤ 'Z') || ('0' ≤ c && c ≤ '9')

/-- The regexp `^[CDG][A-Z0-9]{8,}$` (`channelIDPattern`). -/
def channelIDPattern (s : String) : Bool :=
  match s.data with
  | c :: rest => (c == 'C' || c == 'D' || c == 'G') && decide (8 ≤ rest.length) && rest.all isUpperDigit
  | [] => false

/-- The regexp `^U[A-Z0-9]{8,}$` used by `ResolveUserID`. -/
def userIDPattern (s : String) : Bool :=
  match s.data with
  | c :: rest => (c == 'U') && decide (8 ≤ rest.length) && rest.all isUpperDigit
  | [] => false

/-- `NormalizeChannelInput` (client.go lines 269-278): trim, strip a
leading `#` (without any ID check), otherwise test the ID pattern. -/
def NormalizeChannelInput (input : String) : String × Bool :=
  let trimmed := goTrimSpace input
  match trimmed.data with
  | '#' :: rest => (String.mk rest, false)
  | _ =>
    if channelIDPattern trimmed then (trimmed, true)
    else (trimmed, false)

/-- Result of a resolver run: ghost call trace and the Go return value
(`none` = pagination fuel exhausted). -/
structure ResolveRun where
  calls : List (String × Params)
  out : Option (Except String String)

/-- The parameter map of the `search.messages` fast-path call. -/
def searchParams (name : String) : Params :=
  [("query", "in:#" ++ name), ("count", "1"), ("sort", "timestamp"), ("sort_dir", "desc")]

/-- `resolveViaSearch` (client.go lines 301-338); issues call index 0. -/
def resolveViaSearch (client : ApiClient) (name : String) : Except String String :=
  match client 0 "search.messages" (searchParams name) with
  | .error e => .error e
  | .ok resp =>
    match jobjD (jget resp "messages") with
    | none => .error "no messages field"
    | some messages =>
      match jarrD (jget messages "matches") with
      | [] => .error "no matches"
      | first :: _ =>
        match jobjD first with
        | none => .error "invalid match"
        | some firstM =>
          match jobjD (jget firstM "channel") with
          | none => .error "no channel in match"
          | some channel =>
            let channelID := jstrD (jget channel "id")
            if channelID = "" then .error "no channel ID in match"
            else .ok channelID

/-- The parameter map of one `conversations.list` fallback page. -/
def listParams (cursor : String) : Params :=
  [("exclude_archived", "true"), ("limit", "200"), ("types", "public_channel,private_channel")]
    ++ (if cursor = "" then [] else [("cursor", cursor)])

/-- The linear scan of one page of channels: first entry whose `name`
equals the searched name and whose `id` is non-empty. -/
def findChannelID : List JVal → String → Option String
  | [], _ => none
  | ch :: rest, name =>
    match jobjD ch with
    | none => findChannelID rest name
    | some c =>
      if jstrD (jget c "name") = name then
        (fun cID => if cID = "" then findChannelID rest name else some cID) (jstrD (jget c "id"))
      else findChannelID rest name

/-- `resolveViaPagination` (client.go lines 340-379), fueled; `k` is the
index of the next remote call. -/
def resolveViaPagination (client : ApiClient) (name : String) :
    Nat → String → Nat → ResolveRun
  | 0, _, _ => ⟨[], none⟩
  | fuel+1, cursor, k =>
    let params := listParams cursor
    match client k "conversations.list" params with
    | .error e => ⟨[("conversations.list", params)], some (.error ("conversations.list: " ++ e))⟩
    | .ok resp =>
      match findChannelID (jarrD (jget resp "channels")) name with
      | some cID => ⟨[("conversations.list", params)], some (.ok cID)⟩
      | none =>
        let next := nextCursorOf resp
        if next = "" then
          ⟨[("conversations.list", params)],
           some (.error ("could not resolve channel name: #" ++ name))⟩
        else
          let rest := resolveViaPagination client name fuel next (k+1)
          ⟨("conversations.list", params) :: rest.calls, rest.out⟩

/-- `ResolveChannelID` (client.go lines 282-299): canonical IDs return
immediately; otherwise the search fast path, then the pagination
fallback when the fast path errors or yields an empty ID. -/
def ResolveChannelID (fuel : Nat) (client : ApiClient) (input : String) : ResolveRun :=
  let (name, isID) := NormalizeChannelInput input
  if isID then ⟨[], some (.ok name)⟩
  else if name = "" then ⟨[], some (.error "channel name is empty")⟩
  else
    let sres := resolveViaSearch client name
    let strace := [("search.messages", searchParams name)]
    match sres with
    | .ok channelID =>
      if channelID ≠ "" then ⟨strace, some (.ok channelID)⟩
      else
        let rest := resolveViaPagination client name fuel "" 1
        ⟨strace ++ rest.calls, rest.out⟩
    | .error _ =>
      let rest := resolveViaPagination client name fuel "" 1
      ⟨strace ++ rest.calls, rest.out⟩

/-- `strings.TrimPrefix(s, "@")`. -/
def stripAtSign (s : String) : String :=
  match s.data with
  | '@' :: rest => String.mk rest
  | _ => s

/-- The parameter map of one `users.list` page. -/
def usersParams (cursor : String) : Params :=
  [("limit", "200")] ++ (if cursor = "" then [] else [("cursor", cursor)])

/-- The member scan of `ResolveUserID`: first member whose `name` equals
the cleaned handle and whose `id` is non-empty. -/
def findUserID : List JVal → String → Option String
  | [], _ => none
  | m :: rest, cleaned =>
    match jobjD m with
    | none => findUserID rest cleaned
    | some member =>
      if jstrD (jget member "name") = cleaned then
        (fun id => if id = "" then findUserID rest cleaned else some id) (jstrD (jget member "id"))
      else findUserID rest cleaned

/-- The `users.list` pagination loop of `ResolveUserID`, fueled. -/
def userPagination (client : ApiClient) (cleaned : String) :
    Nat → String → Nat → ResolveRun
  | 0, _, _ => ⟨[], none⟩
  | fuel+1, cursor, k =>
    let params := usersParams cursor
    match client k "users.list" params with
    | .error e => ⟨[("users.list", params)], some (.error ("users.list: " ++ e))⟩
    | .ok resp =>
      match findUserID (jarrD (jget resp "members")) cleaned with
      | some id => ⟨[("users.list", params)], some (.ok id)⟩
      | none =>
        let next := nextCursorOf resp
        if next = "" then
          ⟨[("users.list", params)], some (.error ("could not resolve user: @" ++ cleaned))⟩
        else
          let rest := userPagination client cleaned fuel next (k+1)
          ⟨("users.list", params) :: rest.calls, rest.out⟩

/-- `ResolveUserID` (client.go lines 414-461). -/
def ResolveUserID (fuel : Nat) (client : ApiClient) (handle : String) : ResolveRun :=
  let cleaned := stripAtSign (goTrimSpace handle)
  if cleaned = "" then ⟨[], some (.error "user handle is empty")⟩
  else if userIDPattern cleaned then ⟨[], some (.ok cleaned)⟩
  else userPagination client cleaned fuel "" 0

/-!
## The sort is a permutation

Every data move in the embedded `sort.Slice` is an index swap, so each
routine returns a permutation of its input; in particular the sort
preserves length and content.
-/

section GoSortPerm

variable {α : Type} [Inhabited α]

omit [Inhabited α] in
theorem set_getD_self : ∀ (xs : List α) (i : Nat) (d : α), i < xs.length →
    xs.set i (xs.getD i d) = xs := by
  intro xs
  induction xs with
  | nil => intro i d h; simp at h
  | cons x t ih =>
    intro i d h
    cases i with
    | zero => simp
    | succ i' =>
      simp only [List.set_cons_succ, List.getD_cons_succ]
      rw [ih i' d (by simpa using h)]

omit [Inhabited α] in
theorem set_set_swap_perm (d : α) : ∀ (xs : List α) (i j : Nat), i < j → j < xs.length →
    ((xs.set i (xs.getD j d)).set j (xs.getD i d)).Perm xs := by
  intro xs
  induction xs with
  | nil => intro i j _ h; simp at h
  | cons x t ih =>
    intro i j hij hj
    cases i with
    | zero =>
      cases j with
      | zero => omega
      | succ j' =>
        have hj' : j' < t.length := by simpa using hj
        simp only [List.getD_cons_succ, List.getD_cons_zero, List.set_cons_zero,
          List.set_cons_succ]
        rw [List.getD_eq_getElem t d hj', List.set_eq_take_cons_drop _ hj']
        refine List.Perm.trans (List.Perm.cons _ List.perm_middle) ?_
        refine List.Perm.trans (List.Perm.swap _ _ _) ?_
        refine List.Perm.trans (List.Perm.cons _ List.perm_middle.symm) ?_
        rw [List.getElem_cons_drop, List.take_append_drop]
    | succ i' =>
      cases j with
      | zero => omega
      | succ j' =>
        simp only [List.set_cons_succ, List.getD_cons_succ]
        exact (ih i' j' (by omega) (by simpa using hj)).cons x

theorem lswap_perm (xs : List α) (i j : Nat) : (lswap xs i j).Perm xs := by
  unfold lswap nthD
  split
  · rename_i h
    rcases Nat.lt_trichotomy i j with hij | rfl | hji
    · exact set_set_swap_perm default xs i j hij h.2
    · rw [List.set_set, set_getD_self xs i default h.1]
    · rw [List.set_comm _ _ _ (by omega : i ≠ j)]
      exact set_set_swap_perm default xs j i hji h.1
  · exact List.Perm.refl _

theorem lswap_length (xs : List α) (i j : Nat) : (lswap xs i j).length = xs.length :=
  (lswap_perm xs i j).length_eq

variable (lt : α → α → Bool)

theorem insShift_perm (a : Nat) : ∀ (j : Nat) (xs : List α), (insShift lt a xs j).Perm xs := by
  intro j
  induction j with
  | zero => intro xs; exact List.Perm.refl _
  | succ j' ih =>
    intro xs
    unfold insShift
    split
    · exact (ih _).trans (lswap_perm _ _ _)
    · exact List.Perm.refl _

theorem insSortFrom_perm (a b : Nat) : ∀ (fuel : Nat) (xs : List α) (i : Nat),
    (insSortFrom lt a b fuel xs i).Perm xs := by
  intro fuel
  induction fuel with
  | zero => intro xs i; exact List.Perm.refl _
  | succ fuel ih =>
    intro xs i
    unfold insSortFrom
    split
    · exact (ih _ _).trans (insShift_perm lt a i xs)
    · exact List.Perm.refl _

theorem insSort_perm (a b : Nat) (xs : List α) : (insSort lt a b xs).Perm xs :=
  insSortFrom_perm lt a b (b+1) xs (a+1)

theorem siftDown_perm (first hi : Nat) : ∀ (fuel : Nat) (xs : List α) (root : Nat),
    (siftDown lt first hi fuel xs root).Perm xs := by
  intro fuel
  induction fuel with
  | zero => intro xs root; exact List.Perm.refl _
  | succ fuel ih =>
    intro xs root
    unfold siftDown
    dsimp only
    repeat' split
    all_goals first
      | exact (ih _ _).trans (lswap_perm _ _ _)
      | exact List.Perm.refl _

theorem heapBuild_perm (first hi : Nat) : ∀ (n : Nat) (xs : List α),
    (heapBuild lt first hi xs n).Perm xs := by
  intro n
  induction n with
  | zero => intro xs; exact List.Perm.refl _
  | succ n ih => intro xs; exact (ih _).trans (siftDown_perm lt first hi (hi+1) xs n)

theorem heapPop_perm (first : Nat) : ∀ (n : Nat) (xs : List α),
    (heapPop lt first xs n).Perm xs := by
  intro n
  induction n with
  | zero => intro xs; exact List.Perm.refl _
  | succ n ih =>
    intro xs
    exact (ih _).trans ((siftDown_perm lt first n (n+1) _ 0).trans (lswap_perm _ _ _))

theorem heapSort_perm (a b : Nat) (xs : List α) : (heapSort lt a b xs).Perm xs :=
  (heapPop_perm lt a (b-a) _).trans (heapBuild_perm lt a (b-a) ((b-a-1)/2 + 1) xs)

theorem revRangeAux_perm : ∀ (fuel : Nat) (xs : List α) (i j : Nat),
    (revRangeAux fuel xs i j).Perm xs := by
  intro fuel
  induction fuel with
  | zero => intro xs i j; exact List.Perm.refl _
  | succ fuel ih =>
    intro xs i j
    unfold revRangeAux
    split
    · exact (ih _ _ _).trans (lswap_perm _ _ _)
    · exact List.Perm.refl _

theorem revRange_perm (xs : List α) (a b : Nat) : (revRange xs a b).Perm xs :=
  revRangeAux_perm (b+1) xs a (b-1)

theorem partLoop_perm (a : Nat) : ∀ (fuel : Nat) (xs : List α) (i j : Nat),
    (partLoop lt a fuel xs i j).1.Perm xs := by
  intro fuel
  induction fuel with
  | zero => intro xs i j; exact List.Perm.refl _
  | succ fuel ih =>
    intro xs i j
    unfold partLoop
    dsimp only
    split
    · exact List.Perm.refl _
    · exact (ih _ _ _).trans (lswap_perm _ _ _)

theorem partitionF_perm (xs : List α) (a b pivot : Nat) :
    (partitionF lt xs a b pivot).1.Perm xs := by
  unfold partitionF
  dsimp only
  split
  · exact (lswap_perm _ _ _).trans (lswap_perm _ _ _)
  · rcases hq : partLoop lt a (b+1) (lswap (lswap xs a pivot)
        (scanUp lt (lswap xs a pivot) a (b+1) (a+1) (b-1))
        (scanDown lt (lswap xs a pivot) a (scanUp lt (lswap xs a pivot) a (b+1) (a+1) (b-1)) (b-1)))
        (scanUp lt (lswap xs a pivot) a (b+1) (a+1) (b-1) + 1)
        (scanDown lt (lswap xs a pivot) a (scanUp lt (lswap xs a pivot) a (b+1) (a+1) (b-1)) (b-1) - 1)
      with ⟨xs2, j2⟩
    have h1 := partLoop_perm lt a (b+1) (lswap (lswap xs a pivot)
        (scanUp lt (lswap xs a pivot) a (b+1) (a+1) (b-1))
        (scanDown lt (lswap xs a pivot) a (scanUp lt (lswap xs a pivot) a (b+1) (a+1) (b-1)) (b-1)))
        (scanUp lt (lswap xs a pivot) a (b+1) (a+1) (b-1) + 1)
        (scanDown lt (lswap xs a pivot) a (scanUp lt (lswap xs a pivot) a (b+1) (a+1) (b-1)) (b-1) - 1)
    rw [hq] at h1
    exact (lswap_perm _ _ _).trans
      (h1.trans ((lswap_perm _ _ _).trans (lswap_perm _ _ _)))

theorem partEqLoop_perm (a : Nat) : ∀ (fuel : Nat) (xs : List α) (i j : Nat),
    (partEqLoop lt a fuel xs i j).1.Perm xs := by
  intro fuel
  induction fuel with
  | zero => intro xs i j; exact List.Perm.refl _
  | succ fuel ih =>
    intro xs i j
    unfold partEqLoop
    dsimp only
    split
    · exact List.Perm.refl _
    · exact (ih _ _ _).trans (lswap_perm _ _ _)

theorem partitionEqualF_perm (xs : List α) (a b pivot : Nat) :
    (partitionEqualF lt xs a b pivot).1.Perm xs :=
  (partEqLoop_perm lt a (b+1) _ _ _).trans (lswap_perm xs a pivot)

theorem shiftR_perm (b : Nat) : ∀ (fuel : Nat) (xs : List α) (j : Nat),
    (shiftR lt b fuel xs j).Perm xs := by
  intro fuel
  induction fuel with
  | zero => intro xs j; exact List.Perm.refl _
  | succ fuel ih =>
    intro xs j
    unfold shiftR
    split
    · exact (ih _ _).trans (lswap_perm _ _ _)
    · exact List.Perm.refl _

theorem partInsAux_perm (a b : Nat) : ∀ (steps : Nat) (xs : List α) (i : Nat),
    (partInsAux lt a b steps xs i).1.Perm xs := by
  intro steps
  induction steps with
  | zero => intro xs i; exact List.Perm.refl _
  | succ steps ih =>
    intro xs i
    unfold partInsAux
    dsimp only
    repeat' split
    all_goals first
      | exact List.Perm.refl _
      | exact (ih _ _).trans ((shiftR_perm lt b _ _ _).trans
          ((insShift_perm lt 0 _ _).trans (lswap_perm _ _ _)))
      | exact (ih _ _).trans ((shiftR_perm lt b _ _ _).trans (lswap_perm _ _ _))
      | exact (ih _ _).trans ((insShift_perm lt 0 _ _).trans (lswap_perm _ _ _))
      | exact (ih _ _).trans (lswap_perm _ _ _)

theorem partInsSort_perm (a b : Nat) (xs : List α) : (partInsSort lt a b xs).1.Perm xs :=
  partInsAux_perm lt a b 5 xs (a+1)

theorem breakPatterns_perm (xs : List α) (a b : Nat) : (breakPatterns xs a b).Perm xs := by
  unfold breakPatterns
  dsimp only
  split
  · exact (lswap_perm _ _ _).trans ((lswap_perm _ _ _).trans (lswap_perm _ _ _))
  · exact List.Perm.refl _

theorem pdqCont_perm (rec : List α → Nat → Nat → Nat → Bool → Bool → List α)
    (hrec : ∀ xs a b l wb wp, (rec xs a b l wb wp).Perm xs)
    (a b limit1 : Nat) (wb wp : Bool) (piv : Nat) (xsc : List α) :
    (pdqCont lt rec a b limit1 wb wp piv xsc).Perm xsc := by
  unfold pdqCont
  split
  · rcases hq : partitionEqualF lt xsc a b piv with ⟨xsd, mid⟩
    have hp := partitionEqualF_perm lt xsc a b piv
    rw [hq] at hp
    exact (hrec _ _ _ _ _ _).trans hp
  · rcases hq : partitionF lt xsc a b piv with ⟨xsd, mid, already⟩
    have hp := partitionF_perm lt xsc a b piv
    rw [hq] at hp
    dsimp only
    split
    · exact ((hrec _ _ _ _ _ _).trans (hrec _ _ _ _ _ _)).trans hp
    · exact ((hrec _ _ _ _ _ _).trans (hrec _ _ _ _ _ _)).trans hp

theorem pdqsortF_perm : ∀ (fuel : Nat) (xs : List α) (a b limit : Nat) (wb wp : Bool),
    (pdqsortF lt fuel xs a b limit wb wp).Perm xs := by
  intro fuel
  induction fuel with
  | zero => intro xs a b limit wb wp; exact List.Perm.refl _
  | succ fuel ih =>
    intro xs a b limit wb wp
    have hcont := pdqCont_perm lt (pdqsortF lt fuel) (fun xs a b l w1 w2 => ih xs a b l w1 w2)
    unfold pdqsortF
    dsimp only
    split
    · exact insSort_perm lt a b xs
    · split
      · exact heapSort_perm lt a b xs
      · have hy0p : (if (!wb) = true then breakPatterns xs a b else xs).Perm xs := by
          split
          · exact breakPatterns_perm xs a b
          · exact List.Perm.refl _
        generalize hy0 : (if (!wb) = true then breakPatterns xs a b else xs) = y0
        rw [hy0] at hy0p
        generalize (if (!wb) = true then limit - 1 else limit) = l1
        rcases hcp : choosePivot lt y0 a b with ⟨p0, h0⟩
        have hy1p : (if h0 == Hint.decreasing then revRange y0 a b else y0).Perm y0 := by
          split
          · exact revRange_perm y0 a b
          · exact List.Perm.refl _
        generalize hy1 : (if h0 == Hint.decreasing then revRange y0 a b else y0) = y1
        rw [hy1] at hy1p
        generalize (if h0 == Hint.decreasing then (b - 1) - (p0 - a) else p0) = piv1
        generalize (if h0 == Hint.decreasing then Hint.increasing else h0) = hint1
        split
        · rcases hps : partInsSort lt a b y1 with ⟨xsp, done⟩
          have hp := partInsSort_perm lt a b y1
          rw [hps] at hp
          cases done
          · exact (hcont a b l1 wb wp piv1 xsp).trans (hp.trans (hy1p.trans hy0p))
          · exact hp.trans (hy1p.trans hy0p)
        · exact (hcont a b l1 wb wp piv1 y1).trans (hy1p.trans hy0p)

theorem sortSliceBy_perm (xs : List α) : (sortSliceBy lt xs).Perm xs :=
  pdqsortF_perm lt (xs.length + 70) xs 0 xs.length (bitsLen xs.length) true true

theorem sortSliceBy_length (xs : List α) : (sortSliceBy lt xs).length = xs.length :=
  (sortSliceBy_perm lt xs).length_eq

end GoSortPerm

theorem sortMessages_perm (msgs : List Msg) : (sortMessages msgs).Perm msgs :=
  sortSliceBy_perm msgLt msgs

theorem sortMessages_length (msgs : List Msg) : (sortMessages msgs).length = msgs.length :=
  (sortMessages_perm msgs).length_eq

/-!
## A model remote holding a fixed list of records

`histServe rs` serves the records `rs` in order, honouring the requested
page size: a request with cursor position `o` and page size `s` is
answered with the next `min(s, |rs| - o)` records, plus a continuation
cursor exactly when records remain.  Cursors encode the position as an
opaque token (`'c'` repeated `o` times), so the empty cursor is position
0 and a continuation cursor is never empty.  The decimal `limit`
parameter produced by `strconv.Itoa` is decoded by `decNat`.
-/

/-- One step of decimal decoding. -/
def decStep (acc : Nat) (c : Char) : Nat := acc * 10 + (c.toNat - '0'.toNat)

/-- Decimal decoding of the `limit` request parameter. -/
def decNat (s : String) : Nat := s.data.foldl decStep 0

set_option maxRecDepth 10000 in
theorem decNat_toString : ∀ n : Nat, n ≤ 200 → decNat (toString n) = n := by decide

theorem decNat_toString_int (n : Int) (h1 : 0 ≤ n) (h2 : n ≤ 200) :
    decNat (toString n) = n.toNat := by
  cases n with
  | ofNat m =>
    have : m ≤ 200 := by
      have h3 : (m : Int) ≤ 200 := h2
      exact_mod_cast h3
    simpa using decNat_toString m this
  | negSucc m => cases h1

/-- The cursor token for position `o`. -/
def cursorOf (o : Nat) : String := String.mk (List.replicate o 'c')

theorem cursorOf_zero : cursorOf 0 = "" := rfl

theorem cursorOf_ne_empty (o : Nat) (h : 0 < o) : cursorOf o ≠ "" := by
  intro hc
  have : (cursorOf o).data = List.replicate o 'c' := rfl
  rw [hc] at this
  have := congrArg List.length this
  simp at this
  omega

/-- The model remote with record list `rs`. -/
def histServe (rs : List Msg) : ApiClient := fun _ _ ps =>
  let offset := ((pget ps "cursor").getD "").data.length
  let lim := decNat ((pget ps "limit").getD "")
  let page := (rs.drop offset).take lim
  let next := if offset + lim < rs.length then cursorOf (offset + lim) else ""
  .ok [("ok", .jbool true),
       ("messages", .jarr (page.map JVal.jobj)),
       ("response_metadata", .jobj [("next_cursor", .jstr next)])]

theorem msgsOf_histResp (page : List Msg) (next : String) :
    msgsOf [("ok", .jbool true), ("messages", .jarr (page.map JVal.jobj)),
      ("response_metadata", .jobj [("next_cursor", .jstr next)])] = page := by
  have h1 : msgsOf [("ok", .jbool true), ("messages", .jarr (page.map JVal.jobj)),
      ("response_metadata", .jobj [("next_cursor", .jstr next)])]
      = (page.map JVal.jobj).filterMap jobjD := rfl
  rw [h1, List.filterMap_map]
  have h2 : (jobjD ∘ JVal.jobj) = some := rfl
  rw [h2, List.filterMap_some]

theorem nextCursorOf_histResp (page : List Msg) (next : String) :
    nextCursorOf [("ok", .jbool true), ("messages", .jarr (page.map JVal.jobj)),
      ("response_metadata", .jobj [("next_cursor", .jstr next)])] = next := rfl

theorem histServe_eval (rs : List Msg) (k : Nat) (method ch : String) (o : Nat) (ps : Int)
    (h1 : 0 ≤ ps) (h2 : ps ≤ 200) :
    histServe rs k method ([("channel", ch), ("limit", toString ps)]
        ++ (if cursorOf o = "" then [] else [("cursor", cursorOf o)]))
      = .ok [("ok", .jbool true),
             ("messages", .jarr (((rs.drop o).take ps.toNat).map JVal.jobj)),
             ("response_metadata", .jobj [("next_cursor",
                .jstr (if o + ps.toNat < rs.length then cursorOf (o + ps.toNat) else ""))])] := by
  by_cases ho : o = 0
  · subst ho
    rw [cursorOf_zero, if_pos rfl, List.append_nil]
    unfold histServe
    rw [show (pget [("channel", ch), ("limit", toString ps)] "cursor") = none from rfl,
      show (pget [("channel", ch), ("limit", toString ps)] "limit") = some (toString ps) from rfl]
    simp only [Option.getD]
    rw [decNat_toString_int ps h1 h2]
    rfl
  · rw [if_neg (cursorOf_ne_empty o (Nat.pos_of_ne_zero ho))]
    unfold histServe
    rw [show (pget ([("channel", ch), ("limit", toString ps)] ++ [("cursor", cursorOf o)]) "cursor")
        = some (cursorOf o) from rfl,
      show (pget ([("channel", ch), ("limit", toString ps)] ++ [("cursor", cursorOf o)]) "limit")
        = some (toString ps) from rfl]
    simp only [Option.getD]
    rw [decNat_toString_int ps h1 h2]
    rw [show (cursorOf o).data.length = o by simp [cursorOf]]

theorem chanLoop_bounded_min (rs : List Msg) (ch : String) (N : Int) :
    ∀ (fuel : Nat) (o : Nat) (acc : List Msg) (k : Nat),
      acc.length = o → (o : Int) < N → o ≤ rs.length → rs.length - o < fuel →
      ∃ l, (chanLoop (histServe rs) ch false N fuel acc (cursorOf o) k).out
          = some (.ok l) ∧ l.length = min N.toNat rs.length := by
  intro fuel
  induction fuel with
  | zero => intro o acc k _ _ _ h4; omega
  | succ fuel ih =>
    intro o acc k h1 h2 h3 h4
    simp only [chanLoop, Bool.not_false, Bool.true_and, decide_eq_true_eq, h1]
    have hps_pos : (0:Int) < if N - (o:Int) < 200 then N - (o:Int) else 200 := by
      split <;> omega
    have hps_le : (if N - (o:Int) < 200 then N - (o:Int) else 200) ≤ 200 := by
      split <;> omega
    rw [if_neg (by omega : ¬ (if N - (o:Int) < 200 then N - (o:Int) else 200) ≤ 0)]
    rw [histServe_eval rs k "conversations.history" ch o _ (le_of_lt hps_pos) hps_le]
    simp only [msgsOf_histResp, nextCursorOf_histResp]
    set psz : Int := if N - (o:Int) < 200 then N - (o:Int) else 200 with hpsz
    have hlen2 : (acc ++ (rs.drop o).take psz.toNat).length
        = o + min psz.toNat (rs.length - o) := by
      simp [List.length_append, List.length_take, List.length_drop, h1]
    by_cases hhit : N ≤ ((acc ++ (rs.drop o).take psz.toNat).length : Int)
    · rw [if_pos hhit]
      refine ⟨(acc ++ (rs.drop o).take psz.toNat).take N.toNat, rfl, ?_⟩
      rw [List.length_take, hlen2]
      omega
    · rw [if_neg hhit]
      rw [hlen2] at hhit
      by_cases hend : o + psz.toNat < rs.length
      · have hne : cursorOf (o + psz.toNat) ≠ "" := by
          refine cursorOf_ne_empty _ ?_
          omega
        rw [if_pos hend, if_neg hne]
        have hserved : min psz.toNat (rs.length - o) = psz.toNat := by omega
        rw [hserved] at hhit
        obtain ⟨l, hl, hlen⟩ := ih (o + psz.toNat) (acc ++ (rs.drop o).take psz.toNat) (k+1)
          (by rw [hlen2, hserved]) (by omega) (by omega) (by omega)
        exact ⟨l, hl, hlen⟩
      · rw [if_neg hend]
        simp only [if_pos rfl]
        refine ⟨acc ++ (rs.drop o).take psz.toNat, rfl, ?_⟩
        rw [hlen2]
        omega

theorem getLastD_of_ne_nil {β : Type} {l : List β} (h : l ≠ []) (d1 d2 : β) :
    l.getLastD d1 = l.getLastD d2 := by
  rw [List.getLastD_eq_getLast?, List.getLastD_eq_getLast?]
  cases hl : l.getLast? with
  | none => exact absurd (List.getLast?_eq_none_iff.mp hl) h
  | some x => rfl

theorem chanLoop_unlimited_all (rs : List Msg) (ch : String) :
    ∀ (fuel : Nat) (o : Nat) (k : Nat),
      o ≤ rs.length → rs.length - o < fuel →
      (chanLoop (histServe rs) ch true 0 fuel (rs.take o) (cursorOf o) k).out
          = some (.ok rs) ∧
      (chanLoop (histServe rs) ch true 0 fuel (rs.take o) (cursorOf o) k).resps ≠ [] ∧
      nextCursorOf ((chanLoop (histServe rs) ch true 0 fuel (rs.take o) (cursorOf o) k).resps.getLastD [])
          = "" := by
  intro fuel
  induction fuel with
  | zero => intro o k _ h4; omega
  | succ fuel ih =>
    intro o k h3 h4
    simp only [chanLoop, Bool.not_true, Bool.false_and, Bool.false_eq_true, if_false]
    rw [if_neg (by omega : ¬ (200:Int) ≤ 0)]
    rw [histServe_eval rs k "conversations.history" ch o 200 (by omega) (by omega)]
    simp only [msgsOf_histResp, nextCursorOf_histResp]
    have htoNat : (200:Int).toNat = 200 := rfl
    rw [htoNat]
    have hacc2 : rs.take o ++ (rs.drop o).take 200 = rs.take (o + 200) :=
      (List.take_add rs o 200).symm
    by_cases hend : o + 200 < rs.length
    · have hne : cursorOf (o + 200) ≠ "" := cursorOf_ne_empty _ (by omega)
      rw [if_pos hend, if_neg hne]
      have := ih (o + 200) (k+1) (by omega) (by omega)
      rw [← hacc2] at this
      obtain ⟨hout, hne2, hlast⟩ := this
      refine ⟨hout, by simp, ?_⟩
      simp only [List.getLastD_cons]
      rw [getLastD_of_ne_nil hne2 _ []]
      exact hlast
    · rw [if_neg hend]
      simp only [if_pos rfl]
      have hall : rs.take (o + 200) = rs := List.take_of_length_le (by omega)
      rw [hacc2, hall]
      refine ⟨rfl, by simp, ?_⟩
      rfl

/-- C1: against a remote holding `rs` (T = `rs.length` records, pages
served in order, cursor chaining, page sizes honoured), a bounded fetch
with limit `N > 0` returns exactly `min N T` records, and a fetch with
limit `N ≤ 0` (normalized to unlimited) pages until a response carries
no continuation cursor and returns all `T` records. -/
theorem C1_fetchChannelHistory_min (rs : List Msg) (ch : String) (N : Int) (fuel : Nat)
    (hfuel : rs.length < fuel) :
    (0 < N → ∃ l, ListChannelHistory fuel (histServe rs) ch N = some (.ok l) ∧
       l.length = min N.toNat rs.length) ∧
    (N ≤ 0 → ∃ l, ListChannelHistory fuel (histServe rs) ch N = some (.ok l) ∧
       l.Perm rs ∧
       (ListChannelHistoryRun fuel (histServe rs) ch N).resps ≠ [] ∧
       nextCursorOf ((ListChannelHistoryRun fuel (histServe rs) ch N).resps.getLastD [])
         = "") := by
  constructor
  · intro hN
    unfold ListChannelHistory ListChannelHistoryRun
    have hdec : decide (N ≤ 0) = false := decide_eq_false (by omega)
    simp only [hdec, Bool.false_eq_true, if_false]
    obtain ⟨l, hl, hlen⟩ := chanLoop_bounded_min rs ch N fuel 0 [] 0 rfl
      (by exact_mod_cast hN) (by omega) (by omega)
    rw [← cursorOf_zero]
    rw [hl]
    exact ⟨sortMessages l, rfl, by rw [sortMessages_length]; exact hlen⟩
  · intro hN
    unfold ListChannelHistory ListChannelHistoryRun
    have hdec : decide (N ≤ 0) = true := decide_eq_true hN
    simp only [hdec, if_true]
    obtain ⟨hout, hne, hlast⟩ := chanLoop_unlimited_all rs ch fuel 0 0 (by omega) (by omega)
    rw [List.take_zero] at hout hne hlast
    rw [← cursorOf_zero]
    rw [hout]
    exact ⟨sortMessages rs, rfl, sortMessages_perm rs, hne, hlast⟩

/-- Witness for C1 at a concrete remote of 3 records and limit 2. -/
theorem C1_fetchChannelHistory_min_witness :
    ∃ l, ListChannelHistory 4
        (histServe [[("ts", JVal.jstr "3")], [("ts", JVal.jstr "1")], [("ts", JVal.jstr "2")]])
        "C" 2 = some (.ok l) ∧
      l.length = min (2:Int).toNat
        [[("ts", JVal.jstr "3")], [("ts", JVal.jstr "1")], [("ts", JVal.jstr "2")]].length :=
  (C1_fetchChannelHistory_min
    [[("ts", JVal.jstr "3")], [("ts", JVal.jstr "1")], [("ts", JVal.jstr "2")]]
    "C" 2 4 (by simp)).1 (by omega)

theorem chanLoop_bounded_le (client : ApiClient) (ch : String) (N : Int) :
    ∀ (fuel : Nat) (acc : List Msg) (cursor : String) (k : Nat),
      (acc.length : Int) < N →
      ∀ l, (chanLoop client ch false N fuel acc cursor k).out = some (.ok l) →
        l.length ≤ N.toNat := by
  intro fuel
  induction fuel with
  | zero => intro acc cursor k _ l hl; simp [chanLoop] at hl
  | succ fuel ih =>
    intro acc cursor k hacc l hl
    simp only [chanLoop, Bool.not_false, Bool.true_and, decide_eq_true_eq] at hl
    rw [if_neg (show ¬ (if N - (acc.length:Int) < 200 then N - (acc.length:Int) else 200) ≤ 0
      by split <;> omega)] at hl
    split at hl
    · simp at hl
    · split at hl
      · simp only [Option.some.injEq, Except.ok.injEq] at hl
        subst hl
        rw [List.length_take]
        exact Nat.min_le_left _ _
      · split at hl
        · simp only [Option.some.injEq, Except.ok.injEq] at hl
          subst hl
          omega
        · exact ih _ _ _ (by omega) l hl

theorem histServe_thread_eval (rs : List Msg) (k : Nat) (method ch ts : String) (o : Nat) :
    histServe rs k method ([("channel", ch), ("ts", ts), ("limit", "200")]
        ++ (if cursorOf o = "" then [] else [("cursor", cursorOf o)]))
      = .ok [("ok", .jbool true),
             ("messages", .jarr (((rs.drop o).take 200).map JVal.jobj)),
             ("response_metadata", .jobj [("next_cursor",
                .jstr (if o + 200 < rs.length then cursorOf (o + 200) else ""))])] := by
  by_cases ho : o = 0
  · subst ho
    rw [cursorOf_zero, if_pos rfl, List.append_nil]
    rfl
  · rw [if_neg (cursorOf_ne_empty o (Nat.pos_of_ne_zero ho))]
    unfold histServe
    rw [show (pget ([("channel", ch), ("ts", ts), ("limit", "200")] ++ [("cursor", cursorOf o)])
        "cursor") = some (cursorOf o) from rfl,
      show (pget ([("channel", ch), ("ts", ts), ("limit", "200")] ++ [("cursor", cursorOf o)])
        "limit") = some "200" from rfl]
    simp only [Option.getD]
    rw [show (cursorOf o).data.length = o by simp [cursorOf]]
    rfl

theorem threadLoop_model (rs : List Msg) (ch ts : String) (N : Int) (hN : 0 < N) :
    ∀ (fuel : Nat) (o : Nat) (k : Nat), (o : Int) < N → o ≤ rs.length →
      rs.length - o < fuel →
      (threadLoop (histServe rs) ch ts N fuel (rs.take o) (cursorOf o) k).out
        = some (.ok (if (rs.length - o + 199)/200 ≤ (N.toNat - o + 199)/200 then rs
                     else rs.take N.toNat)) := by
  intro fuel
  induction fuel with
  | zero => intro o k _ _ h4; omega
  | succ fuel ih =>
    intro o k h2 h3 h4
    simp only [threadLoop]
    rw [histServe_thread_eval rs k "conversations.replies" ch ts o]
    simp only [msgsOf_histResp, nextCursorOf_histResp]
    have hacc2 : rs.take o ++ (rs.drop o).take 200 = rs.take (o + 200) :=
      (List.take_add rs o 200).symm
    by_cases hend : o + 200 < rs.length
    · have hlen : (rs.take o ++ (rs.drop o).take 200).length = o + 200 := by
        simp only [List.length_append, List.length_take, List.length_drop]
        omega
      have hne : cursorOf (o + 200) ≠ "" := cursorOf_ne_empty _ (by omega)
      rw [if_pos hend, if_neg hne]
      by_cases hhit : 0 < N ∧ N ≤ ((rs.take o ++ (rs.drop o).take 200).length : Int)
      · have hN2 : N ≤ (o:Int) + 200 := by
          have h5 := hhit.2
          rw [hlen] at h5
          exact_mod_cast h5
        have hres : (if (rs.length - o + 199)/200 ≤ (N.toNat - o + 199)/200 then rs
            else rs.take N.toNat) = rs.take N.toNat := by
          rw [if_neg (by omega)]
        rw [hres, if_pos hhit, hacc2]
        have htt : (rs.take (o + 200)).take N.toNat = rs.take N.toNat := by
          rw [List.take_take]
          congr 1
          omega
        rw [htt]
      · rw [if_neg hhit]
        rw [hlen] at hhit
        have hlt : (↑(o + 200) : Int) < N := by omega
        rw [hacc2]
        have hrec := ih (o + 200) (k+1) hlt (by omega) (by omega)
        rw [hrec]
        have hiff : ((rs.length - (o+200) + 199)/200 ≤ (N.toNat - (o+200) + 199)/200)
            ↔ ((rs.length - o + 199)/200 ≤ (N.toNat - o + 199)/200) := by omega
        rw [if_congr hiff rfl rfl]
    · rw [if_neg hend]
      simp only [if_pos rfl]
      rw [hacc2, @List.take_of_length_le Msg (o+200) rs (by omega)]
      rw [show (if (rs.length - o + 199)/200 ≤ (N.toNat - o + 199)/200 then rs
          else rs.take N.toNat) = rs from if_pos (by omega)]
      rfl

/-- C2 (amended): for every client the channel-history path never
returns more than `N` records; the thread variant requests the ceiling
page size and stops on an empty cursor, but applies its truncation check
only after adopting a non-empty continuation cursor, so against a remote
with `T` records it returns `N` records only when the capping page still
carries a cursor (`200·⌈N/200⌉ < T`) and returns all `T` records —
possibly more than `N` — when the remote is exhausted at or before that
page. -/
theorem C2_limit_bound (client : ApiClient) (ch : String) (N : Int) (fuel : Nat) :
    (0 < N → ∀ l, ListChannelHistory fuel client ch N = some (.ok l) →
      l.length ≤ N.toNat) ∧
    (∀ (rs : List Msg) (ts : String), 0 < N → rs.length < fuel →
      ∃ l, ListThread fuel (histServe rs) ch ts N = some (.ok l) ∧
        l.length = (if (rs.length + 199)/200 ≤ (N.toNat + 199)/200 then rs.length
                    else N.toNat)) := by
  constructor
  · intro hN l hl
    unfold ListChannelHistory ListChannelHistoryRun at hl
    have hdec : decide (N ≤ 0) = false := decide_eq_false (by omega)
    simp only [hdec, Bool.false_eq_true, if_false] at hl
    rcases hout : (chanLoop client ch false N fuel [] "" 0).out with _ | r
    · rw [hout] at hl; simp at hl
    · rw [hout] at hl
      cases r with
      | error e => simp [Except.map] at hl
      | ok l0 =>
        simp only [Option.map_some, Except.map] at hl
        have hb := chanLoop_bounded_le client ch N fuel [] "" 0 (by simpa using hN) l0 hout
        cases hl
        rw [sortMessages_length]
        exact hb
  · intro rs ts hN hfuel
    unfold ListThread ListThreadRun
    have h0 := threadLoop_model rs ch (NormalizeTimestamp ts) N hN fuel 0 0
      (by simpa using hN) (by omega) (by omega)
    rw [List.take_zero] at h0
    rw [← cursorOf_zero, h0]
    refine ⟨sortMessages (if (rs.length - 0 + 199)/200 ≤ (N.toNat - 0 + 199)/200 then rs
        else rs.take N.toNat), rfl, ?_⟩
    rw [sortMessages_length]
    split
    · rename_i hc
      rw [if_pos (by omega)]
    · rename_i hc
      rw [if_neg (by omega), List.length_take]
      have : N.toNat ≤ rs.length := by omega
      omega

/-- Witness for C2 at a concrete client (single page of two records,
limit 3) and a concrete model thread remote. -/
theorem C2_limit_bound_witness :
    (∀ l, ListChannelHistory 3
        (histServe [[("ts", JVal.jstr "1")], [("ts", JVal.jstr "2")]]) "C" 3
        = some (.ok l) → l.length ≤ (3:Int).toNat) ∧
    (∃ l, ListThread 3 (histServe [[("ts", JVal.jstr "1")], [("ts", JVal.jstr "2")]])
        "C" "1" 3 = some (.ok l) ∧
      l.length = (if ((2:Nat) + 199)/200 ≤ (((3:Int).toNat + 199)/200) then 2 else (3:Int).toNat)) := by
  have h := C2_limit_bound (histServe [[("ts", JVal.jstr "1")], [("ts", JVal.jstr "2")]]) "C" 3 3
  exact ⟨h.1 (by omega), by simpa using h.2 [[("ts", JVal.jstr "1")], [("ts", JVal.jstr "2")]] "1" (by omega) (by simp)⟩

/-- C2 counterexample: `ListThread` with limit 1 against a single page
of two records and no continuation cursor returns both records — the
aggregate exceeds the bound `N = 1`, refuting the claim that the thread
variant always truncates to `N`. -/
theorem C2_counterexample :
    (ListThread 3 (fun _ _ _ => .ok [("ok", JVal.jbool true),
        ("messages", JVal.jarr [JVal.jobj [("ts", JVal.jstr "1")],
                                JVal.jobj [("ts", JVal.jstr "2")]])])
      "C" "1" 1).map (Except.map List.length) = some (.ok 2) ∧ (1:Nat) < 2 :=
  ⟨rfl, by omega⟩

/-!
## Request traces: page sizes (C3) and cursor chaining (C5)
-/

/-- Number of records aggregated from a prefix of responses. -/
def collected (resps : List Fields) : Nat := (resps.map (fun r => (msgsOf r).length)).sum

theorem collected_nil : collected [] = 0 := rfl

theorem collected_cons (r : Fields) (rs : List Fields) :
    collected (r :: rs) = (msgsOf r).length + collected rs := by
  simp [collected]

theorem pget_limit_chanParams (ch s : String) (copt : Params) :
    pget ([("channel", ch), ("limit", s)] ++ copt) "limit" = some s := rfl

theorem pget_cursor_chanParams (ch s cursor : String) :
    pget ([("channel", ch), ("limit", s)]
        ++ (if cursor = "" then [] else [("cursor", cursor)])) "cursor"
      = if cursor = "" then none else some cursor := by
  by_cases h : cursor = ""
  · rw [if_pos h, if_pos h]
    rfl
  · rw [if_neg h, if_neg h]
    rfl

theorem pget_limit_threadParams (ch ts : String) (copt : Params) :
    pget ([("channel", ch), ("ts", ts), ("limit", "200")] ++ copt) "limit" = some "200" := rfl

theorem chanLoop_limits_bounded (client : ApiClient) (ch : String) (N : Int) :
    ∀ (fuel : Nat) (acc : List Msg) (cursor : String) (k : Nat),
      (acc.length : Int) < N →
      ∀ i, i < (chanLoop client ch false N fuel acc cursor k).reqs.length →
        pget ((chanLoop client ch false N fuel acc cursor k).reqs.getD i []) "limit"
          = some (toString (min 200
              (N - ((acc.length + collected ((chanLoop client ch false N fuel acc cursor k).resps.take i) : Nat) : Int)))) ∧
        (0:Int) < min 200
          (N - ((acc.length + collected ((chanLoop client ch false N fuel acc cursor k).resps.take i) : Nat) : Int)) := by
  intro fuel
  induction fuel with
  | zero => intro acc cursor k _ i hi; simp [chanLoop] at hi
  | succ fuel ih =>
    intro acc cursor k hacc i hi
    simp only [chanLoop, Bool.not_false, Bool.true_and, decide_eq_true_eq] at hi ⊢
    have hps : (if N - (acc.length:Int) < 200 then N - (acc.length:Int) else 200)
        = min 200 (N - (acc.length:Int)) := by
      split <;> omega
    rw [hps] at hi ⊢
    rw [if_neg (by omega : ¬ min 200 (N - (acc.length:Int)) ≤ 0)] at hi ⊢
    set prms := [("channel", ch), ("limit", toString (min 200 (N - (acc.length:Int)))) ]
        ++ (if cursor = "" then [] else [("cursor", cursor)]) with hprms
    cases hc : client k "conversations.history" prms with
    | error e =>
      rw [hc] at hi
      dsimp only at hi ⊢
      have hi0 : i = 0 := by simpa using hi
      subst hi0
      refine ⟨?_, by simp [collected_nil]; omega⟩
      simp only [List.getD, List.take, collected_nil, Nat.add_zero]
      exact pget_limit_chanParams ch _ _
    | ok resp =>
      rw [hc] at hi
      dsimp only at hi ⊢
      by_cases hhit : N ≤ (((acc ++ msgsOf resp).length : Nat) : Int)
      · rw [if_pos hhit] at hi ⊢
        dsimp only at hi ⊢
        have hi0 : i = 0 := by simpa using hi
        subst hi0
        refine ⟨?_, by simp [collected_nil]; omega⟩
        simp only [List.getD, List.take, collected_nil, Nat.add_zero]
        exact pget_limit_chanParams ch _ _
      · rw [if_neg hhit] at hi ⊢
        by_cases hcur : nextCursorOf resp = ""
        · rw [if_pos hcur] at hi ⊢
          dsimp only at hi ⊢
          have hi0 : i = 0 := by simpa using hi
          subst hi0
          refine ⟨?_, by simp [collected_nil]; omega⟩
          simp only [List.getD, List.take, collected_nil, Nat.add_zero]
          exact pget_limit_chanParams ch _ _
        · rw [if_neg hcur] at hi ⊢
          dsimp only at hi ⊢
          cases i with
          | zero =>
            refine ⟨?_, by simp [collected_nil]; omega⟩
            simp only [List.getD, List.take, collected_nil, Nat.add_zero]
            exact pget_limit_chanParams ch _ _
          | succ j =>
            have hacc2 : ((acc ++ msgsOf resp).length : Int) < N := by omega
            have hj : j < (chanLoop client ch false N fuel (acc ++ msgsOf resp)
                (nextCursorOf resp) (k+1)).reqs.length := by
              simpa using hi
            have hIH := ih (acc ++ msgsOf resp) (nextCursorOf resp) (k+1) hacc2 j hj
            have harith : ((acc ++ msgsOf resp).length
                  + collected ((chanLoop client ch false N fuel (acc ++ msgsOf resp)
                      (nextCursorOf resp) (k+1)).resps.take j) : Nat)
                = acc.length + ((msgsOf resp).length
                  + collected ((chanLoop client ch false N fuel (acc ++ msgsOf resp)
                      (nextCursorOf resp) (k+1)).resps.take j)) := by
              simp [List.length_append]
              omega
            rw [harith] at hIH
            simpa [List.getD_cons_succ, List.take_succ_cons, collected_cons] using hIH

theorem chanLoop_limits_unlimited (client : ApiClient) (ch : String) (L : Int) :
    ∀ (fuel : Nat) (acc : List Msg) (cursor : String) (k : Nat),
      ∀ i, i < (chanLoop client ch true L fuel acc cursor k).reqs.length →
        pget ((chanLoop client ch true L fuel acc cursor k).reqs.getD i []) "limit"
          = some "200" := by
  intro fuel
  induction fuel with
  | zero => intro acc cursor k i hi; simp [chanLoop] at hi
  | succ fuel ih =>
    intro acc cursor k i hi
    simp only [chanLoop, Bool.not_true, Bool.false_and, Bool.false_eq_true, if_false] at hi ⊢
    rw [if_neg (by omega : ¬ (200:Int) ≤ 0)] at hi ⊢
    set prms := [("channel", ch), ("limit", toString (200:Int))]
        ++ (if cursor = "" then [] else [("cursor", cursor)]) with hprms
    cases hc : client k "conversations.history" prms with
    | error e =>
      rw [hc] at hi
      dsimp only at hi ⊢
      have hi0 : i = 0 := by simpa using hi
      subst hi0
      simp only [List.getD]
      exact pget_limit_chanParams ch _ _
    | ok resp =>
      rw [hc] at hi
      dsimp only at hi ⊢
      by_cases hcur : nextCursorOf resp = ""
      · rw [if_pos hcur] at hi ⊢
        dsimp only at hi ⊢
        have hi0 : i = 0 := by simpa using hi
        subst hi0
        simp only [List.getD]
        exact pget_limit_chanParams ch _ _
      · rw [if_neg hcur] at hi ⊢
        dsimp only at hi ⊢
        cases i with
        | zero =>
          simp only [List.getD]
          exact pget_limit_chanParams ch _ _
        | succ j =>
          have hj : j < (chanLoop client ch true L fuel (acc ++ msgsOf resp)
              (nextCursorOf resp) (k+1)).reqs.length := by
            simpa using hi
          simpa [List.getD_cons_succ] using
            ih (acc ++ msgsOf resp) (nextCursorOf resp) (k+1) j hj

theorem threadLoop_limits (client : ApiClient) (ch ts : String) (L : Int) :
    ∀ (fuel : Nat) (acc : List Msg) (cursor : String) (k : Nat),
      ∀ i, i < (threadLoop client ch ts L fuel acc cursor k).reqs.length →
        pget ((threadLoop client ch ts L fuel acc cursor k).reqs.getD i []) "limit"
          = some "200" := by
  intro fuel
  induction fuel with
  | zero => intro acc cursor k i hi; simp [threadLoop] at hi
  | succ fuel ih =>
    intro acc cursor k i hi
    simp only [threadLoop] at hi ⊢
    set prms := [("channel", ch), ("ts", ts), ("limit", "200")]
        ++ (if cursor = "" then [] else [("cursor", cursor)]) with hprms
    cases hc : client k "conversations.replies" prms with
    | error e =>
      rw [hc] at hi
      dsimp only at hi ⊢
      have hi0 : i = 0 := by simpa using hi
      subst hi0
      simp only [List.getD]
      exact pget_limit_threadParams ch ts _
    | ok resp =>
      rw [hc] at hi
      dsimp only at hi ⊢
      by_cases hcur : nextCursorOf resp = ""
      · rw [if_pos hcur] at hi ⊢
        dsimp only at hi ⊢
        have hi0 : i = 0 := by simpa using hi
        subst hi0
        simp only [List.getD]
        exact pget_limit_threadParams ch ts _
      · rw [if_neg hcur] at hi ⊢
        by_cases hhit : 0 < L ∧ L ≤ (((acc ++ msgsOf resp).length : Nat) : Int)
        · rw [if_pos hhit] at hi ⊢
          dsimp only at hi ⊢
          have hi0 : i = 0 := by simpa using hi
          subst hi0
          simp only [List.getD]
          exact pget_limit_threadParams ch ts _
        · rw [if_neg hhit] at hi ⊢
          dsimp only at hi ⊢
          cases i with
          | zero =>
            simp only [List.getD]
            exact pget_limit_threadParams ch ts _
          | succ j =>
            have hj : j < (threadLoop client ch ts L fuel (acc ++ msgsOf resp)
                (nextCursorOf resp) (k+1)).reqs.length := by
              simpa using hi
            simpa [List.getD_cons_succ] using
              ih (acc ++ msgsOf resp) (nextCursorOf resp) (k+1) j hj

/-- C3: before every issued page request of a bounded channel fetch the
requested size equals `min(200, N − collected_so_far)` and is strictly
positive (a non-positive size stops the loop without a request, so a
request of size ≤ 0 is never issued); unlimited channel fetches and
thread fetches always request the ceiling 200. -/
theorem C3_page_sizes (client : ApiClient) (ch ts : String) (N : Int) (fuel : Nat) :
    (0 < N → ∀ i, i < (ListChannelHistoryRun fuel client ch N).reqs.length →
      pget ((ListChannelHistoryRun fuel client ch N).reqs.getD i []) "limit"
        = some (toString (min 200
            (N - (collected ((ListChannelHistoryRun fuel client ch N).resps.take i) : Int)))) ∧
      (0:Int) < min 200
        (N - (collected ((ListChannelHistoryRun fuel client ch N).resps.take i) : Int))) ∧
    (N ≤ 0 → ∀ i, i < (ListChannelHistoryRun fuel client ch N).reqs.length →
      pget ((ListChannelHistoryRun fuel client ch N).reqs.getD i []) "limit" = some "200") ∧
    (∀ i, i < (ListThreadRun fuel client ch ts N).reqs.length →
      pget ((ListThreadRun fuel client ch ts N).reqs.getD i []) "limit" = some "200") := by
  refine ⟨?_, ?_, ?_⟩
  · intro hN i hi
    unfold ListChannelHistoryRun at hi ⊢
    have hdec : decide (N ≤ 0) = false := decide_eq_false (by omega)
    simp only [hdec, Bool.false_eq_true, if_false] at hi ⊢
    have := chanLoop_limits_bounded client ch N fuel [] "" 0 (by simpa using hN) i hi
    simpa using this
  · intro hN i hi
    unfold ListChannelHistoryRun at hi ⊢
    have hdec : decide (N ≤ 0) = true := decide_eq_true hN
    simp only [hdec, if_true] at hi ⊢
    exact chanLoop_limits_unlimited client ch 0 fuel [] "" 0 i hi
  · intro i hi
    unfold ListThreadRun at hi ⊢
    exact threadLoop_limits client ch (NormalizeTimestamp ts) N fuel [] "" 0 i hi

/-- Witness for C3: concrete bounded run (limit 2 against 3 records,
one request of size 2) and concrete thread run. -/
theorem C3_page_sizes_witness :
    ((0:Int) < 2 ∧
      0 < (ListChannelHistoryRun 4
        (histServe [[("ts", JVal.jstr "3")], [("ts", JVal.jstr "1")], [("ts", JVal.jstr "2")]])
        "C" 2).reqs.length) ∧
    pget ((ListChannelHistoryRun 4
        (histServe [[("ts", JVal.jstr "3")], [("ts", JVal.jstr "1")], [("ts", JVal.jstr "2")]])
        "C" 2).reqs.getD 0 []) "limit"
      = some (toString (min 200
          ((2:Int) - (collected ((ListChannelHistoryRun 4
            (histServe [[("ts", JVal.jstr "3")], [("ts", JVal.jstr "1")], [("ts", JVal.jstr "2")]])
            "C" 2).resps.take 0) : Int)))) := by
  refine ⟨⟨by omega, by decide⟩, ?_⟩
  exact ((C3_page_sizes (histServe [[("ts", JVal.jstr "3")], [("ts", JVal.jstr "1")],
    [("ts", JVal.jstr "2")]]) "C" "1" 2 4).1 (by omega) 0 (by decide)).1

theorem chanLoop_cursor_chain (client : ApiClient) (ch : String) (u : Bool) (L : Int) :
    ∀ (fuel : Nat) (acc : List Msg) (cursor : String) (k : Nat),
      (0 < (chanLoop client ch u L fuel acc cursor k).reqs.length →
        pget ((chanLoop client ch u L fuel acc cursor k).reqs.getD 0 []) "cursor"
          = (if cursor = "" then none else some cursor)) ∧
      (∀ i, i+1 < (chanLoop client ch u L fuel acc cursor k).reqs.length →
        pget ((chanLoop client ch u L fuel acc cursor k).reqs.getD (i+1) []) "cursor"
          = some (nextCursorOf ((chanLoop client ch u L fuel acc cursor k).resps.getD i [])) ∧
        nextCursorOf ((chanLoop client ch u L fuel acc cursor k).resps.getD i []) ≠ "") ∧
      (∀ i, i < (chanLoop client ch u L fuel acc cursor k).resps.length →
        nextCursorOf ((chanLoop client ch u L fuel acc cursor k).resps.getD i []) = "" →
        i+1 = (chanLoop client ch u L fuel acc cursor k).resps.length ∧
        (chanLoop client ch u L fuel acc cursor k).reqs.length
          = (chanLoop client ch u L fuel acc cursor k).resps.length) := by
  intro fuel
  induction fuel with
  | zero =>
    intro acc cursor k
    exact ⟨fun h => absurd h (by simp [chanLoop]),
      fun i h => absurd h (by simp [chanLoop]),
      fun i h _ => absurd h (by simp [chanLoop])⟩
  | succ fuel ih =>
    intro acc cursor k
    simp only [chanLoop]
    by_cases hsz : (if (!u && decide (L - (acc.length:Int) < 200)) = true
        then L - (acc.length:Int) else 200) ≤ 0
    · rw [if_pos hsz]
      exact ⟨fun h => absurd h (by simp),
        fun i h => absurd h (by simp),
        fun i h _ => absurd h (by simp)⟩
    · rw [if_neg hsz]
      set prms := [("channel", ch),
          ("limit", toString (if (!u && decide (L - (acc.length:Int) < 200)) = true
            then L - (acc.length:Int) else 200))]
          ++ (if cursor = "" then [] else [("cursor", cursor)]) with hprms
      cases hc : client k "conversations.history" prms with
      | error e =>
        dsimp only
        refine ⟨?_, ?_, ?_⟩
        · intro _
          exact pget_cursor_chanParams ch _ cursor
        · intro i h
          simp at h
        · intro i h
          simp at h
      | ok resp =>
        dsimp only
        split
        · refine ⟨?_, ?_, ?_⟩
          · intro _
            exact pget_cursor_chanParams ch _ cursor
          · intro i h
            simp at h
          · intro i h _
            simp at h
            subst h
            exact ⟨rfl, rfl⟩
        · split
          · refine ⟨?_, ?_, ?_⟩
            · intro _
              exact pget_cursor_chanParams ch _ cursor
            · intro i h
              simp at h
            · intro i h _
              simp at h
              subst h
              exact ⟨rfl, rfl⟩
          · rename_i hhit hcur
            obtain ⟨ih1, ih2, ih3⟩ := ih (acc ++ msgsOf resp) (nextCursorOf resp) (k+1)
            refine ⟨?_, ?_, ?_⟩
            · intro _
              exact pget_cursor_chanParams ch _ cursor
            · intro i h
              cases i with
              | zero =>
                simp only [List.getD_cons_succ, List.getD]
                have h0 : 0 < (chanLoop client ch u L fuel (acc ++ msgsOf resp)
                    (nextCursorOf resp) (k+1)).reqs.length := by
                  simpa using h
                have := ih1 h0
                rw [if_neg hcur] at this
                exact ⟨this, hcur⟩
              | succ j =>
                have hj : j+1 < (chanLoop client ch u L fuel (acc ++ msgsOf resp)
                    (nextCursorOf resp) (k+1)).reqs.length := by
                  simpa using h
                simpa [List.getD_cons_succ] using ih2 j hj
            · intro i h hc0
              cases i with
              | zero =>
                simp only [List.getD] at hc0
                exact absurd hc0 hcur
              | succ j =>
                have hj : j < (chanLoop client ch u L fuel (acc ++ msgsOf resp)
                    (nextCursorOf resp) (k+1)).resps.length := by
                  simpa using h
                have hc1 : nextCursorOf ((chanLoop client ch u L fuel (acc ++ msgsOf resp)
                    (nextCursorOf resp) (k+1)).resps.getD j []) = "" := by
                  simpa [List.getD_cons_succ] using hc0
                obtain ⟨he1, he2⟩ := ih3 j hj hc1
                constructor
                · simp [← he1]
                · simp [he2]

/-- C5: across any channel-history run, the first request carries no
cursor; request `k+1` carries exactly the (non-empty) cursor returned by
response `k`; and a response with an empty/absent cursor is the last of
the run — no later request exists, so the cursors sent are exactly the
non-empty cursors returned by the prior calls, in order. -/
theorem C5_cursor_chain (client : ApiClient) (ch : String) (N : Int) (fuel : Nat) :
    (0 < (ListChannelHistoryRun fuel client ch N).reqs.length →
      pget ((ListChannelHistoryRun fuel client ch N).reqs.getD 0 []) "cursor" = none) ∧
    (∀ i, i+1 < (ListChannelHistoryRun fuel client ch N).reqs.length →
      pget ((ListChannelHistoryRun fuel client ch N).reqs.getD (i+1) []) "cursor"
        = some (nextCursorOf ((ListChannelHistoryRun fuel client ch N).resps.getD i [])) ∧
      nextCursorOf ((ListChannelHistoryRun fuel client ch N).resps.getD i []) ≠ "") ∧
    (∀ i, i < (ListChannelHistoryRun fuel client ch N).resps.length →
      nextCursorOf ((ListChannelHistoryRun fuel client ch N).resps.getD i []) = "" →
      i+1 = (ListChannelHistoryRun fuel client ch N).resps.length ∧
      (ListChannelHistoryRun fuel client ch N).reqs.length
        = (ListChannelHistoryRun fuel client ch N).resps.length) := by
  unfold ListChannelHistoryRun
  obtain ⟨h1, h2, h3⟩ := chanLoop_cursor_chain client ch (decide (N ≤ 0))
    (if decide (N ≤ 0) = true then 0 else N) fuel [] "" 0
  refine ⟨?_, h2, h3⟩
  intro h0
  rw [h1 h0]
  simp

set_option maxRecDepth 100000 in
/-- Witness for C5: a remote of 250 records under an unlimited fetch
makes two requests; the second carries the first response's cursor, and
the second (empty-cursor) response ends the chain. -/
theorem C5_cursor_chain_witness :
    (pget ((ListChannelHistoryRun 4 (histServe (List.replicate 250 [("ts", JVal.jstr "1")]))
        "C" 0).reqs.getD 0 []) "cursor" = none) ∧
    (pget ((ListChannelHistoryRun 4 (histServe (List.replicate 250 [("ts", JVal.jstr "1")]))
        "C" 0).reqs.getD 1 []) "cursor"
      = some (nextCursorOf ((ListChannelHistoryRun 4
          (histServe (List.replicate 250 [("ts", JVal.jstr "1")])) "C" 0).resps.getD 0 []))) ∧
    ((1:Nat)+1 = (ListChannelHistoryRun 4 (histServe (List.replicate 250 [("ts", JVal.jstr "1")]))
        "C" 0).resps.length) := by
  obtain ⟨h1, h2, h3⟩ := C5_cursor_chain
    (histServe (List.replicate 250 [("ts", JVal.jstr "1")])) "C" 0 4
  refine ⟨h1 (by decide), (h2 0 (by decide)).1, ?_⟩
  exact (h3 1 (by decide) (by decide)).1

theorem chanLoop_error_iff (client : ApiClient) (ch : String) (u : Bool) (L : Int) :
    ∀ (fuel : Nat) (acc : List Msg) (cursor : String) (k : Nat),
      (∃ e, (chanLoop client ch u L fuel acc cursor k).out = some (.error e))
        ↔ (chanLoop client ch u L fuel acc cursor k).resps.length
            < (chanLoop client ch u L fuel acc cursor k).reqs.length := by
  intro fuel
  induction fuel with
  | zero =>
    intro acc cursor k
    simp [chanLoop]
  | succ fuel ih =>
    intro acc cursor k
    simp only [chanLoop]
    repeat' split
    all_goals try simp
    all_goals simpa using ih _ _ (k+1)

/-- C9: a transport failure and a response whose `ok` flag is not `true`
are both turned by `Client.API` into an error carrying the method
context (the remote's error message, with an `"unknown error"`
fallback, in the latter case); and a failed page fetch during the
aggregation loop (a request with no successful response) makes the whole
operation return an error — the `Except` result carries no partially
aggregated records. -/
theorem C9_error_handling :
    (∀ (transport : Transport) (k : Nat) (method : String) (ps : Params) (e : String),
      transport k method ps = .error e →
      clientAPI transport k method ps = .error ("slack API " ++ method ++ ": " ++ e)) ∧
    (∀ (transport : Transport) (k : Nat) (method : String) (ps : Params) (result : Fields),
      transport k method ps = .ok (.jobj result) →
      (match jget result "ok" with | .jbool b => b | _ => false) = false →
      clientAPI transport k method ps = .error ("slack API " ++ method ++ ": " ++
        (if jstrD (jget result "error") = "" then "unknown error"
         else jstrD (jget result "error")))) ∧
    (∀ (fuel : Nat) (client : ApiClient) (ch : String) (N : Int),
      (ListChannelHistoryRun fuel client ch N).resps.length
          < (ListChannelHistoryRun fuel client ch N).reqs.length →
      ∃ e, (ListChannelHistoryRun fuel client ch N).out = some (.error e) ∧
        ListChannelHistory fuel client ch N = some (.error e)) := by
  refine ⟨?_, ?_, ?_⟩
  · intro transport k method ps e he
    unfold clientAPI
    rw [he]
  · intro transport k method ps result ht hok
    unfold clientAPI
    rw [ht]
    dsimp only
    rw [hok]
    simp
  · intro fuel client ch N hlt
    unfold ListChannelHistoryRun at hlt ⊢
    unfold ListChannelHistory ListChannelHistoryRun
    obtain ⟨e, he⟩ := (chanLoop_error_iff client ch (decide (N ≤ 0))
      (if decide (N ≤ 0) = true then 0 else N) fuel [] "" 0).mpr hlt
    exact ⟨e, he, by rw [he]; rfl⟩

/-- Witness for C9: a transport that fails, a remote rejection payload,
and a run whose first page fetch fails. -/
theorem C9_error_handling_witness :
    (clientAPI (fun _ _ _ => .error "boom") 0 "conversations.history" []
      = .error ("slack API " ++ "conversations.history" ++ ": " ++ "boom")) ∧
    (clientAPI (fun _ _ _ => .ok (.jobj [("ok", .jbool false), ("error", .jstr "ratelimited")]))
        0 "conversations.history" []
      = .error ("slack API " ++ "conversations.history" ++ ": " ++
          (if jstrD (jget [(("ok" : String), JVal.jbool false), ("error", JVal.jstr "ratelimited")] "error") = ""
           then "unknown error"
           else jstrD (jget [(("ok" : String), JVal.jbool false), ("error", JVal.jstr "ratelimited")] "error")))) ∧
    (∃ e, (ListChannelHistoryRun 3 (fun _ _ _ => .error "down") "C" 5).out
        = some (.error e) ∧
      ListChannelHistory 3 (fun _ _ _ => .error "down") "C" 5 = some (.error e)) := by
  obtain ⟨h1, h2, h3⟩ := C9_error_handling
  refine ⟨h1 (fun _ _ _ => .error "boom") 0 "conversations.history" [] "boom" rfl,
    h2 (fun _ _ _ => .ok (.jobj [("ok", .jbool false), ("error", .jstr "ratelimited")]))
      0 "conversations.history" [] [("ok", .jbool false), ("error", .jstr "ratelimited")] rfl rfl,
    h3 3 (fun _ _ _ => .error "down") "C" 5 (by decide)⟩

/-- C10: `GetMessage` attaches a thread summary exactly when the fetched
message's `reply_count` is a JSON number greater than zero; the
summary's `ts` is the message's `thread_ts` string, or the normalized
queried timestamp when `thread_ts` is absent or empty, and its `length`
is the integer value of `reply_count`.  A missing, non-numeric or
non-positive `reply_count` leaves the thread summary omitted. -/
theorem C10_getMessage_thread (client : ApiClient) (ch ts : String) (res : MessageResult)
    (h : GetMessage client ch ts = .ok res) :
    (res.thread.isSome ↔ ∃ q : Rat, jget res.message "reply_count" = .jnum q ∧ 0 < q) ∧
    (∀ t, res.thread = some t →
      (∃ q : Rat, jget res.message "reply_count" = .jnum q ∧ 0 < q ∧ t.length = goInt q) ∧
      t.ts = (if jstrD (jget res.message "thread_ts") = "" then NormalizeTimestamp ts
              else jstrD (jget res.message "thread_ts"))) := by
  simp only [GetMessage] at h
  split at h
  · simp at h
  · split at h
    · simp at h
    · split at h
      · simp at h
      · rename_i m rest msg hobj
        split at h
        · rename_i hpos
          simp only [Except.ok.injEq] at h
          subst h
          constructor
          · simp only [Option.isSome_some, true_iff]
            refine ⟨jnumD (jget msg "reply_count"), ?_, hpos⟩
            cases hv : jget msg "reply_count" <;> simp [jnumD, hv] at hpos ⊢
          · intro t ht
            simp only [Option.some.injEq] at ht
            subst ht
            constructor
            · refine ⟨jnumD (jget msg "reply_count"), ?_, hpos, rfl⟩
              cases hv : jget msg "reply_count" <;> simp [jnumD, hv] at hpos ⊢
            · rfl
        · rename_i hneg
          simp only [Except.ok.injEq] at h
          subst h
          constructor
          · simp only [Option.isSome_none, Bool.false_eq_true, false_iff]
            rintro ⟨q, hq, hq0⟩
            exact hneg (by simp [jnumD, hq, hq0])
          · intro t ht
            simp at ht

/-- Witness for C10: a message with `reply_count = 3` and
`thread_ts = "9.9"` yields an attached thread summary. -/
theorem C10_getMessage_thread_witness :
    ((⟨[("ts", JVal.jstr "1.2"), ("reply_count", JVal.jnum 3), ("thread_ts", JVal.jstr "9.9")],
        some ⟨"9.9", goInt 3⟩⟩ : MessageResult).thread.isSome ↔
      ∃ q : Rat, jget [("ts", JVal.jstr "1.2"), ("reply_count", JVal.jnum 3),
        ("thread_ts", JVal.jstr "9.9")] "reply_count" = .jnum q ∧ 0 < q) ∧
    (∀ t, (⟨[("ts", JVal.jstr "1.2"), ("reply_count", JVal.jnum 3), ("thread_ts", JVal.jstr "9.9")],
        some ⟨"9.9", goInt 3⟩⟩ : MessageResult).thread = some t →
      (∃ q : Rat, jget [("ts", JVal.jstr "1.2"), ("reply_count", JVal.jnum 3),
        ("thread_ts", JVal.jstr "9.9")] "reply_count" = .jnum q ∧ 0 < q ∧ t.length = goInt q) ∧
      t.ts = (if jstrD (jget [("ts", JVal.jstr "1.2"), ("reply_count", JVal.jnum 3),
                ("thread_ts", JVal.jstr "9.9")] "thread_ts") = "" then NormalizeTimestamp "1.2"
              else jstrD (jget [("ts", JVal.jstr "1.2"), ("reply_count", JVal.jnum 3),
                ("thread_ts", JVal.jstr "9.9")] "thread_ts"))) :=
  C10_getMessage_thread
    (fun _ _ _ => .ok [("ok", .jbool true),
      ("messages", .jarr [.jobj [("ts", JVal.jstr "1.2"), ("reply_count", JVal.jnum 3),
        ("thread_ts", JVal.jstr "9.9")]])])
    "C" "1.2"
    ⟨[("ts", JVal.jstr "1.2"), ("reply_count", JVal.jnum 3), ("thread_ts", JVal.jstr "9.9")],
      some ⟨"9.9", goInt 3⟩⟩
    rfl

/-- C8 counterexample: the claim says any non-numeric token passes
through unchanged, but the code checks only the length — a 16-character
non-numeric token gets a separator inserted after position 10. -/
theorem C8_counterexample :
    NormalizeTimestamp "abcdefghijklmnop" = "abcdefghij.klmnop" ∧
    NormalizeTimestamp "abcdefghijklmnop" ≠ "abcdefghijklmnop" := by
  constructor
  · rfl
  · decide

/-- C8 (amended): `NormalizeTimestamp` returns tokens containing the
separator unchanged; any other token of exactly 16 characters — numeric
or not, digits are not validated — has the separator inserted after the
10th character; every other shape passes through unchanged.  The spec's
concrete examples hold. -/
theorem C8_normalizeTimestamp_contract (ts : String) :
    (ts.data.contains '.' = true → NormalizeTimestamp ts = ts) ∧
    (ts.data.contains '.' = false → ts.data.length = 16 →
      NormalizeTimestamp ts = String.mk (ts.data.take 10) ++ "." ++ String.mk (ts.data.drop 10)) ∧
    (ts.data.contains '.' = false → ts.data.length ≠ 16 → NormalizeTimestamp ts = ts) ∧
    NormalizeTimestamp "1772147524.763449" = "1772147524.763449" ∧
    NormalizeTimestamp "1772147524763449" = "1772147524.763449" ∧
    NormalizeTimestamp "12345" = "12345" ∧
    NormalizeTimestamp "" = "" := by
  refine ⟨?_, ?_, ?_, by decide, by decide, by decide, by decide⟩
  · intro h
    unfold NormalizeTimestamp
    rw [if_pos h]
  · intro h1 h2
    unfold NormalizeTimestamp
    rw [if_neg (by simpa using h1), if_pos h2]
  · intro h1 h2
    unfold NormalizeTimestamp
    rw [if_neg (by simpa using h1), if_neg h2]

/-- Witness for C8 at the 16-digit example token. -/
theorem C8_normalizeTimestamp_contract_witness :
    NormalizeTimestamp "1772147524763449" =
      String.mk ("1772147524763449".data.take 10) ++ "." ++
        String.mk ("1772147524763449".data.drop 10) :=
  (C8_normalizeTimestamp_contract "1772147524763449").2.1 (by decide) (by decide)

/-- C6 counterexample: `"#C12345678"` strips to the canonical-ID-shaped
`"C12345678"`, yet the resolver performs network calls (search, then
pagination) instead of returning it unchanged with zero calls — the
`#`-stripped branch never applies the ID pattern check. -/
theorem C6_counterexample :
    channelIDPattern "C12345678" = true ∧
    (ResolveChannelID 5 (fun _ _ _ => .error "net") "#C12345678").calls.length = 2 ∧
    (ResolveChannelID 5 (fun _ _ _ => .error "net") "#C12345678").out
      = some (.error ("conversations.list: " ++ "net")) := by
  refine ⟨by decide, rfl, rfl⟩

/-- C6 (amended): a user reference is trimmed, its `@` marker stripped,
and a canonical user ID returned unchanged with zero network calls; a
channel reference gets the canonical-ID check only when it carries no
`#` marker — a bare canonical channel ID returns unchanged with zero
network calls, while a `#`-prefixed one is treated as a name. -/
theorem C6_resolver_fast_path :
    (∀ (input : String) (client : ApiClient) (fuel : Nat),
      (NormalizeChannelInput input).2 = true →
      ResolveChannelID fuel client input = ⟨[], some (.ok (NormalizeChannelInput input).1)⟩) ∧
    (∀ input : String, (NormalizeChannelInput input).2 = true ↔
      ((goTrimSpace input).data.head? ≠ some '#' ∧
        channelIDPattern (goTrimSpace input) = true)) ∧
    (∀ (handle : String) (client : ApiClient) (fuel : Nat),
      userIDPattern (stripAtSign (goTrimSpace handle)) = true →
      ResolveUserID fuel client handle
        = ⟨[], some (.ok (stripAtSign (goTrimSpace handle)))⟩) := by
  refine ⟨?_, ?_, ?_⟩
  · intro input client fuel hid
    unfold ResolveChannelID
    rcases hni : NormalizeChannelInput input with ⟨name, isID⟩
    rw [hni] at hid
    simp only at hid
    subst hid
    simp
  · intro input
    unfold NormalizeChannelInput
    dsimp only
    split
    · rename_i rest heq
      simp [heq]
    · rename_i hne2
      by_cases hpat : channelIDPattern (goTrimSpace input) = true
      · simp only [hpat, if_pos]
        simp only [true_iff, hpat, and_true]
        intro hhd
        cases hd : (goTrimSpace input).data with
        | nil => rw [hd] at hhd; simp at hhd
        | cons c cs =>
          rw [hd] at hhd
          simp only [List.head?_cons, Option.some.injEq] at hhd
          subst hhd
          exact hne2 cs hd
      · simp only [hpat]
        simp
  · intro handle client fuel hid
    unfold ResolveUserID
    have hne : stripAtSign (goTrimSpace handle) ≠ "" := by
      intro h0
      unfold userIDPattern at hid
      rw [h0] at hid
      simp at hid
    rw [if_neg hne, if_pos hid]

/-- Witness for C6: bare canonical IDs resolve with zero network calls
on both the channel and the user path, even against a failing client. -/
theorem C6_resolver_fast_path_witness :
    ResolveChannelID 5 (fun _ _ _ => .error "net") "C12345678"
      = ⟨[], some (.ok (NormalizeChannelInput "C12345678").1)⟩ ∧
    ResolveUserID 5 (fun _ _ _ => .error "net") "@U12345678"
      = ⟨[], some (.ok (stripAtSign (goTrimSpace "@U12345678")))⟩ := by
  obtain ⟨h1, _, h3⟩ := C6_resolver_fast_path
  exact ⟨h1 "C12345678" (fun _ _ _ => .error "net") 5 (by decide),
    h3 "@U12345678" (fun _ _ _ => .error "net") 5 (by decide)⟩

/-!
## Model remote for the `conversations.list` fallback (C7)
-/

/-- A model remote serving fixed pages of channel objects; cursors
encode the page index, empty on the last page. -/
def pagesServe (pages : List (List JVal)) : ApiClient := fun _ _ ps =>
  let idx := ((pget ps "cursor").getD "").data.length
  .ok [("ok", .jbool true),
       ("channels", .jarr (pages.getD idx [])),
       ("response_metadata", .jobj [("next_cursor",
          .jstr (if idx + 1 < pages.length then cursorOf (idx+1) else ""))])]

theorem pagesServe_eval (pages : List (List JVal)) (k : Nat) (method : String) (i : Nat) :
    pagesServe pages k method (listParams (cursorOf i))
      = .ok [("ok", .jbool true),
             ("channels", .jarr (pages.getD i [])),
             ("response_metadata", .jobj [("next_cursor",
                .jstr (if i + 1 < pages.length then cursorOf (i+1) else ""))])] := by
  by_cases hi : i = 0
  · subst hi
    rfl
  · unfold pagesServe listParams
    rw [if_neg (cursorOf_ne_empty i (Nat.pos_of_ne_zero hi))]
    rw [show (pget ([("exclude_archived", "true"), ("limit", "200"),
        ("types", "public_channel,private_channel")] ++ [("cursor", cursorOf i)]) "cursor")
        = some (cursorOf i) from rfl]
    simp only [Option.getD]
    rw [show (cursorOf i).data.length = i by simp [cursorOf]]

theorem findChannelID_append (xs ys : List JVal) (name : String) :
    findChannelID (xs ++ ys) name
      = (match findChannelID xs name with
         | some id => some id
         | none => findChannelID ys name) := by
  induction xs with
  | nil => simp [findChannelID]
  | cons x xs ih =>
    simp only [List.cons_append, findChannelID]
    cases hx : jobjD x with
    | none =>
      simp only [hx]
      exact ih
    | some c =>
      simp only [hx]
      split
      · by_cases hid : jstrD (jget c "id") = ""
        · simp only [if_pos hid]
          exact ih
        · simp only [if_neg hid]
      · exact ih

theorem resolveViaSearch_ok_ne (client : ApiClient) (name id : String)
    (h : resolveViaSearch client name = .ok id) : id ≠ "" := by
  unfold resolveViaSearch at h
  split at h
  · simp at h
  · split at h
    · simp at h
    · split at h
      · simp at h
      · split at h
        · simp at h
        · split at h
          · simp at h
          · dsimp only at h
            split at h
            · simp at h
            · rename_i hne
              simp only [Except.ok.injEq] at h
              subst h
              exact hne

theorem channels_pagesResp (chs : List JVal) (next : String) :
    jarrD (jget [("ok", JVal.jbool true), ("channels", JVal.jarr chs),
      ("response_metadata", JVal.jobj [("next_cursor", JVal.jstr next)])] "channels") = chs := rfl

theorem nextCursorOf_pagesResp (chs : List JVal) (next : String) :
    nextCursorOf [("ok", JVal.jbool true), ("channels", JVal.jarr chs),
      ("response_metadata", JVal.jobj [("next_cursor", JVal.jstr next)])] = next := rfl

theorem resolveViaPagination_model (pages : List (List JVal)) (name : String) :
    ∀ (fuel i k : Nat), pages.length - i < fuel →
      (resolveViaPagination (pagesServe pages) name fuel (cursorOf i) k).out
        = some (match findChannelID (pages.drop i).flatten name with
                | some id => Except.ok id
                | none => Except.error ("could not resolve channel name: #" ++ name)) := by
  intro fuel
  induction fuel with
  | zero => intro i k h; omega
  | succ fuel ih =>
    intro i k hfuel
    simp only [resolveViaPagination]
    rw [pagesServe_eval pages k "conversations.list" i]
    dsimp only
    simp only [channels_pagesResp, nextCursorOf_pagesResp]
    by_cases hlen : i < pages.length
    · have hdrop : pages.drop i = pages[i] :: pages.drop (i+1) :=
        (List.getElem_cons_drop pages i hlen).symm
      have hgd : pages.getD i [] = pages[i] := List.getD_eq_getElem pages [] hlen
      rw [hgd, hdrop, List.flatten_cons, findChannelID_append]
      cases hfd : findChannelID pages[i] name with
      | some id => rfl
      | none =>
        dsimp only
        by_cases hnext : i + 1 < pages.length
        · rw [if_pos hnext, if_neg (cursorOf_ne_empty (i+1) (by omega))]
          dsimp only
          exact ih (i+1) (k+1) (by omega)
        · rw [if_neg hnext]
          rw [if_pos rfl]
          have : pages.drop (i+1) = [] := List.drop_eq_nil_of_le (by omega)
          rw [this]
          rfl
    · have hgd : pages.getD i [] = [] := List.getD_eq_default pages [] (by omega)
      have hdrop : pages.drop i = [] := List.drop_eq_nil_of_le (by omega)
      rw [hgd, hdrop]
      rw [if_neg (by omega : ¬ i + 1 < pages.length)]
      rw [if_pos rfl]
      rfl

theorem resolveViaPagination_calls (client : ApiClient) (name : String) :
    ∀ (fuel : Nat) (cursor : String) (k : Nat),
      ∀ c ∈ (resolveViaPagination client name fuel cursor k).calls,
        c.1 = "conversations.list" ∧ pget c.2 "exclude_archived" = some "true" ∧
        pget c.2 "limit" = some "200" := by
  intro fuel
  induction fuel with
  | zero => intro cursor k c hc; simp [resolveViaPagination] at hc
  | succ fuel ih =>
    intro cursor k c hc
    simp only [resolveViaPagination] at hc
    split at hc
    · simp at hc
      subst hc
      exact ⟨rfl, rfl, rfl⟩
    · split at hc
      · simp at hc
        subst hc
        exact ⟨rfl, rfl, rfl⟩
      · split at hc
        · simp at hc
          subst hc
          exact ⟨rfl, rfl, rfl⟩
        · simp only [List.mem_cons] at hc
          rcases hc with rfl | hc
          · exact ⟨rfl, rfl, rfl⟩
          · exact ih _ (k+1) c hc

/-- C7: the fallback full scan runs exactly when the fast search path
fails (the fast path never yields an empty ID on success); every
fallback request lists non-archived channels with the fixed max page
size; against a model remote serving fixed pages the fallback returns
the ID of the first entry whose `name` matches exactly (case-sensitive,
first in page order), and an error naming the searched channel exactly
when no page contains such an entry. -/
theorem C7_channel_fallback :
    (∀ (client : ApiClient) (input name : String) (fuel : Nat),
      NormalizeChannelInput input = (name, false) → name ≠ "" →
      (∀ id, resolveViaSearch client name = .ok id →
        ResolveChannelID fuel client input
          = ⟨[("search.messages", searchParams name)], some (.ok id)⟩) ∧
      (∀ e, resolveViaSearch client name = .error e →
        ResolveChannelID fuel client input
          = ⟨("search.messages", searchParams name)
              :: (resolveViaPagination client name fuel "" 1).calls,
             (resolveViaPagination client name fuel "" 1).out⟩)) ∧
    (∀ (client : ApiClient) (name : String) (fuel : Nat) (cursor : String) (k : Nat),
      ∀ c ∈ (resolveViaPagination client name fuel cursor k).calls,
        c.1 = "conversations.list" ∧ pget c.2 "exclude_archived" = some "true" ∧
        pget c.2 "limit" = some "200") ∧
    (∀ (pages : List (List JVal)) (name : String) (fuel k : Nat),
      pages.length < fuel →
      (resolveViaPagination (pagesServe pages) name fuel "" k).out
        = some (match findChannelID pages.flatten name with
                | some id => Except.ok id
                | none => Except.error ("could not resolve channel name: #" ++ name))) := by
  refine ⟨?_, resolveViaPagination_calls, ?_⟩
  · intro client input name fuel hni hname
    constructor
    · intro id hs
      unfold ResolveChannelID
      rw [hni]
      dsimp only
      rw [if_neg hname, hs]
      dsimp only
      rw [if_pos (resolveViaSearch_ok_ne client name id hs)]
      simp
    · intro e hs
      unfold ResolveChannelID
      rw [hni]
      dsimp only
      rw [if_neg hname, hs]
      simp
  · intro pages name fuel k hfuel
    have := resolveViaPagination_model pages name fuel 0 k (by omega)
    rw [cursorOf_zero] at this
    simpa using this

/-- Witness for C7: a client whose search call fails and a model page
remote containing the searched channel. -/
theorem C7_channel_fallback_witness :
    (ResolveChannelID 2 (fun _ _ _ => .error "no search") "general"
      = ⟨("search.messages", searchParams "general")
          :: (resolveViaPagination (fun _ _ _ => .error "no search") "general" 2 "" 1).calls,
         (resolveViaPagination (fun _ _ _ => .error "no search") "general" 2 "" 1).out⟩) ∧
    ((resolveViaPagination
        (pagesServe [[JVal.jobj [("name", JVal.jstr "general"), ("id", JVal.jstr "C0GEN")]]])
        "general" 2 "" 1).out
      = some (match findChannelID
            [[JVal.jobj [("name", JVal.jstr "general"), ("id", JVal.jstr "C0GEN")]]].flatten
            "general" with
          | some id => Except.ok id
          | none => Except.error ("could not resolve channel name: #" ++ "general"))) := by
  obtain ⟨h1, _, h3⟩ := C7_channel_fallback
  refine ⟨((h1 (fun _ _ _ => .error "no search") "general" "general" 2 rfl (by decide)).2
    "no search" rfl), ?_⟩
  exact h3 [[JVal.jobj [("name", JVal.jstr "general"), ("id", JVal.jstr "C0GEN")]]]
    "general" 2 1 (by simp)

/-!
## C4: the chronological sort is not stable
-/

/-- Non-decreasing-by-`ts` check (ordinary string comparison). -/
def tsSorted : List Msg → Bool
  | [] => true
  | [_] => true
  | a :: b :: t => (!(strLt (tsOf b) (tsOf a))) && tsSorted (b :: t)

/-- A 13-message aggregate with tied `ts` tokens; the marker field `i`
records each record's aggregation position. -/
def C4input : List Msg :=
  [[("ts", JVal.jstr "3"), ("i", JVal.jnum 0)],
   [("ts", JVal.jstr "1"), ("i", JVal.jnum 1)],
   [("ts", JVal.jstr "2"), ("i", JVal.jnum 2)],
   [("ts", JVal.jstr "1"), ("i", JVal.jnum 3)],
   [("ts", JVal.jstr "3"), ("i", JVal.jnum 4)],
   [("ts", JVal.jstr "2"), ("i", JVal.jnum 5)],
   [("ts", JVal.jstr "1"), ("i", JVal.jnum 6)],
   [("ts", JVal.jstr "2"), ("i", JVal.jnum 7)],
   [("ts", JVal.jstr "3"), ("i", JVal.jnum 8)],
   [("ts", JVal.jstr "1"), ("i", JVal.jnum 9)],
   [("ts", JVal.jstr "2"), ("i", JVal.jnum 10)],
   [("ts", JVal.jstr "3"), ("i", JVal.jnum 11)],
   [("ts", JVal.jstr "1"), ("i", JVal.jnum 12)]]

/-- C4: the chronological sort (`sort.Slice`) leaves the output
non-decreasing by `ts` but is NOT stable: in the aggregate `C4input`
the record marked 1 precedes the record marked 6 (equal `ts` token
`"1"`), yet in the sorted output the record marked 6 comes first.  The
spec requires stability ("ties broken by original page order"); the
code's `sort.Slice` call (pdqsort) violates it — `sort.SliceStable`
would be needed. -/
theorem C4_sort_unstable :
    tsSorted (sortMessages C4input) = true ∧
    tsOf (C4input.getD 1 []) = tsOf (C4input.getD 6 []) ∧
    C4input.getD 1 [] = [("ts", JVal.jstr "1"), ("i", JVal.jnum 1)] ∧
    C4input.getD 6 [] = [("ts", JVal.jstr "1"), ("i", JVal.jnum 6)] ∧
    (sortMessages C4input).getD 0 [] = [("ts", JVal.jstr "1"), ("i", JVal.jnum 6)] ∧
    (sortMessages C4input).getD 1 [] = [("ts", JVal.jstr "1"), ("i", JVal.jnum 1)] :=
  ⟨rfl, rfl, rfl, rfl, rfl, rfl⟩
